import Mathlib

/-!
# Verification of `kshell_utilities/collect_logs.py`

A shallow embedding of the log aggregation and canonicalization engine of
`kshell_utilities`, together with proofs and refutations of the frozen
specification claims.

Modelling conventions:
* A text file is a `List String`; each element is one physical line
  *including* its trailing newline, so that Python's `readline`
  (which returns `""` exactly at end of file) is modelled by popping the
  head of the list and returning `""` on the empty list.
* Python `float` arithmetic is idealized as exact arithmetic: parsed
  numeric literals become `ℚ`; values involving `math.pi` and fractional
  powers live in `ℝ`.
* Python exceptions are modelled by `Except String`; non-termination of a
  loop is modelled by an `Option` layer whose `none` means the loop never
  exits.
* Python `dict` is an association list in insertion order with unique keys;
  assignment to an existing key overwrites in place, assignment to a fresh
  key appends.
-/

namespace CollectLogs

instance {ε α : Type} [DecidableEq ε] [DecidableEq α] : DecidableEq (Except ε α)
  | .ok a, .ok b =>
    if h : a = b then .isTrue (h ▸ rfl) else .isFalse (fun hc => h (Except.ok.inj hc))
  | .error a, .error b =>
    if h : a = b then .isTrue (h ▸ rfl) else .isFalse (fun hc => h (Except.error.inj hc))
  | .ok _, .error _ => .isFalse (fun hc => Except.noConfusion hc)
  | .error _, .ok _ => .isFalse (fun hc => Except.noConfusion hc)

/-! ## Python string primitives -/

/-- Python slice `s[a:b]` on a string (both bounds clamp). -/
def pySlice (s : String) (a b : ℕ) : String :=
  String.mk ((s.toList.drop a).take (b - a))

/-- Python slice `s[a:]`. -/
def pySliceFrom (s : String) (a : ℕ) : String :=
  String.mk (s.toList.drop a)

/-- Python `len(s)`. -/
def pyLen (s : String) : ℕ := s.toList.length

/-- Whitespace as recognized by Python's `str.split()` / `int()` / `float()`
on the characters that occur in KSHELL logs. -/
def pyWS (c : Char) : Bool := c = ' ' ∨ c = '\n' ∨ c = '\t' ∨ c = '\r'

/-- Tokenizer behind `pySplit`: accumulate the current token (reversed) and
emit it at each whitespace run. -/
def splitWSAux : List Char → List Char → List (List Char)
  | [], acc => if acc = [] then [] else [acc.reverse]
  | c :: t, acc =>
    if pyWS c then
      if acc = [] then splitWSAux t [] else acc.reverse :: splitWSAux t []
    else splitWSAux t (c :: acc)

/-- Python `str.split()` with no argument: split on whitespace runs,
discarding empty fields. -/
def pySplit (s : String) : List String :=
  (splitWSAux s.toList []).map String.mk

/-- Python `str.lower()` (ASCII). -/
def pyLower (s : String) : String :=
  String.mk (s.toList.map Char.toLower)

/-- First index at which `pat` occurs inside `hay`, if any
(Python `str.index` / the `in` operator). -/
def findSub (hay pat : List Char) : Option ℕ :=
  match hay with
  | [] => if pat = [] then some 0 else none
  | _ :: t => if pat.isPrefixOf hay then some 0 else (findSub t pat).map (· + 1)

/-- Python `pat in s`. -/
def pyContains (s pat : String) : Bool := (findSub s.toList pat.toList).isSome

/-- Python `s.startswith(pat)`. -/
def pyStartswith (s pat : String) : Bool := pat.toList.isPrefixOf s.toList

/-- Digits-only parse of a nonempty character run. -/
def parseDigits (cs : List Char) : Option ℕ :=
  if cs = [] then none
  else if cs.all Char.isDigit then
    some (cs.foldl (fun n c => n * 10 + (c.toNat - ('0').toNat)) 0)
  else none

/-- Python `int(s)`: strip surrounding whitespace, optional sign, digits. -/
def pyInt (s : String) : Option ℤ :=
  let cs := (s.toList.dropWhile (fun c => pyWS c)).reverse.dropWhile (fun c => pyWS c) |>.reverse
  match cs with
  | '-' :: rest => (parseDigits rest).map (fun n => -(n : ℤ))
  | '+' :: rest => (parseDigits rest).map (fun n => (n : ℤ))
  | _ => (parseDigits cs).map (fun n => (n : ℤ))

/-- Parse an unsigned decimal numeral, with an optional fractional part,
as an exact rational: `"123"`, `"123."`, `"12.5"`, `".5"`. -/
def parseDecimal (cs : List Char) : Option ℚ :=
  match findSub cs ['.'] with
  | none => (parseDigits cs).map (fun n => (n : ℚ))
  | some i =>
    let intPart := cs.take i
    let fracPart := cs.drop (i + 1)
    if intPart = [] ∧ fracPart = [] then none
    else
      let ip : Option ℕ := if intPart = [] then some 0 else parseDigits intPart
      let fp : Option ℕ := if fracPart = [] then some 0 else parseDigits fracPart
      match ip, fp with
      | some n, some f => some ((n : ℚ) + (f : ℚ) / (10 : ℚ) ^ fracPart.length)
      | _, _ => none

/-- Python `float(s)` on the decimal literals appearing in KSHELL logs
(strip whitespace, optional sign, decimal numeral), idealized to `ℚ`. -/
def pyFloat (s : String) : Option ℚ :=
  let cs := (s.toList.dropWhile (fun c => pyWS c)).reverse.dropWhile (fun c => pyWS c) |>.reverse
  match cs with
  | '-' :: rest => (parseDecimal rest).map (fun q => -q)
  | '+' :: rest => parseDecimal rest
  | _ => parseDecimal cs

/-! ## `parity_integer_to_string` (collect_logs.py lines 13-28) -/

/-- `parity_integer_to_string`: convert `1` to `"+"` and anything else to `"-"`. -/
def parity_integer_to_string (i : ℤ) : String :=
  if i = 1 then "+" else "-"

/-! ## `spin_to_string` (collect_logs.py lines 120-147) -/

/-- `spin_to_string`: negative doubled spins pass through as literal
integers; non-negative doubled spins render as `str(Fraction(spin/2))`,
i.e. the normalized fraction, printed without a denominator when it is
integral. -/
def spin_to_string (spin : ℤ) : String :=
  if spin < 0 then
    toString spin
  else
    let q : ℚ := (spin : ℚ) / 2
    if q.den = 1 then toString q.num else toString q.num ++ "/" ++ toString q.den

/-! ## `weisskopf_unit` (collect_logs.py lines 30-67) -/

/-- `weisskopf_unit`: the Weisskopf estimate and its unit label for a
multipole designator string (e.g. `"E2"`) and a mass number.
`l = int(multipole_type[1:])`; the leading character, uppercased, selects
the electric or magnetic formula; anything else raises `ValueError`. -/
noncomputable def weisskopf_unit (multipole_type : String) (mass : ℤ) :
    Except String (ℝ × String) :=
  match pyInt (pySliceFrom multipole_type 1) with
  | none => .error "ValueError: invalid literal for int()"
  | some l =>
    match multipole_type.toList with
    | [] => .error "IndexError: string index out of range"
    | c :: _ =>
      if c.toUpper = 'E' then
        .ok ((1.2 : ℝ) ^ (2 * l) / (4 * Real.pi) * ((3 : ℝ) / ((l : ℝ) + 3)) ^ 2 *
              (mass : ℝ) ^ ((2 * (l : ℝ)) / 3),
             "e^2 fm^" ++ toString (2 * l))
      else if c.toUpper = 'M' then
        .ok ((10 : ℝ) / Real.pi * (1.2 : ℝ) ^ (2 * l - 2) * ((3 : ℝ) / ((l : ℝ) + 3)) ^ 2 *
              (mass : ℝ) ^ ((2 * (l : ℝ) - 2) / 3),
             if l = 1 then "mu_N^2  " else "mu_N^2 fm^" ++ toString (2 * l - 2))
      else
        .error ("Got invalid multipole type: '" ++ multipole_type ++ "'.")

/-- The module-level threshold `weisskopf_threshold = -0.001`. -/
noncomputable def weisskopf_threshold : ℝ := -0.001

/-! ## The energy table and the epsilon-nudge (collect_logs.py line 112) -/

/-- One value of the `E_data` dictionary:
`(log filename, spin, parity, eigenstate number, tt)`. -/
structure EnergyRecord where
  filename : String
  spin : ℤ
  parity : String
  n_eig : ℤ
  tt : ℤ
  deriving DecidableEq, Repr

/-- `E_data` as an insertion-ordered association list with unique keys. -/
abbrev EnergyTable := List (ℚ × EnergyRecord)

/-- The nudge increment `0.000001` from `energy += 0.000001`. -/
def nudgeEps : ℚ := 1 / 1000000

/-- Fuel-bounded version of `while energy in E_data: energy += 0.000001`. -/
def nudgeAux : ℕ → List ℚ → ℚ → ℚ
  | 0, _, e => e
  | fuel + 1, keys, e => if e ∈ keys then nudgeAux fuel keys (e + nudgeEps) else e

/-- `while energy in E_data: energy += 0.000001`: each collision walks past a
distinct key, so `keys.length + 1` rounds always reach a free key
(`nudgeAux_spec` below proves the bound suffices, so this fuel-bounded
definition is an exact model of the unbounded Python loop). -/
def nudge (keys : List ℚ) (e : ℚ) : ℚ :=
  nudgeAux (keys.length + 1) keys e

/-- Strictly fewer keys lie at or above `e + nudgeEps` than at or above a
colliding `e`. -/
theorem countP_ge_decreases (keys : List ℚ) (e : ℚ) (he : e ∈ keys) :
    (keys.filter (fun k => decide (e + nudgeEps ≤ k))).length <
      (keys.filter (fun k => decide (e ≤ k))).length := by
  induction keys with
  | nil => cases he
  | cons a t ih =>
    rcases List.mem_cons.mp he with heq | hat
    · subst heq
      simp only [List.filter_cons]
      have h1 : decide (e ≤ e) = true := by simp
      rw [h1]
      by_cases h2 : e + nudgeEps ≤ e
      · exfalso
        have : (0 : ℚ) < nudgeEps := by norm_num [nudgeEps]
        linarith
      · simp only [decide_eq_true_eq, h2, if_false, if_true]
        have : (t.filter (fun k => decide (e + nudgeEps ≤ k))).length ≤
            (t.filter (fun k => decide (e ≤ k))).length := by
          apply List.Sublist.length_le
          apply List.monotone_filter_right
          intro x hx
          have hx' : e + nudgeEps ≤ x := of_decide_eq_true hx
          have : (0 : ℚ) < nudgeEps := by norm_num [nudgeEps]
          simp only [decide_eq_true_eq]
          linarith
        simp only [List.length_cons]
        omega
    · have ht := ih hat
      simp only [List.filter_cons]
      by_cases h2 : e + nudgeEps ≤ a
      · have h1 : e ≤ a := by
          have : (0 : ℚ) < nudgeEps := by norm_num [nudgeEps]
          linarith
        simp only [decide_eq_true_eq, h1, h2, if_true]
        simpa using Nat.succ_lt_succ ht
      · by_cases h1 : e ≤ a
        · simp only [decide_eq_true_eq, h1, h2, if_true, if_false]
          simp only [List.length_cons]
          omega
        · simp only [decide_eq_true_eq, h1, h2, if_false]
          exact ht

/-- With enough fuel, the nudge loop lands outside the key set, moves the
energy up by the least multiple of the increment that frees it, and every
smaller multiple collides. -/
theorem nudgeAux_spec (fuel : ℕ) (keys : List ℚ) (e : ℚ)
    (h : (keys.filter (fun k => decide (e ≤ k))).length < fuel) :
    nudgeAux fuel keys e ∉ keys ∧
      ∃ n : ℕ, nudgeAux fuel keys e = e + n * nudgeEps ∧
        ∀ m : ℕ, m < n → e + m * nudgeEps ∈ keys := by
  induction fuel generalizing e with
  | zero => omega
  | succ m ih =>
    by_cases he : e ∈ keys
    · have hdec := countP_ge_decreases keys e he
      have hm : (keys.filter (fun k => decide (e + nudgeEps ≤ k))).length < m := by omega
      obtain ⟨h1, n, h2, h3⟩ := ih (e + nudgeEps) hm
      refine ⟨by simpa [nudgeAux, he] using h1, n + 1, ?_, ?_⟩
      · simp only [nudgeAux, he, if_true]
        rw [h2]
        push_cast
        ring
      · intro k hk
        match k with
        | 0 => simpa using he
        | k' + 1 =>
          have hk' : k' < n := by omega
          have := h3 k' hk'
          have heq : e + (↑(k' + 1) : ℚ) * nudgeEps = e + nudgeEps + (k' : ℚ) * nudgeEps := by
            push_cast
            ring
          rw [heq]
          exact this
    · exact ⟨by simp [nudgeAux, he], 0, by simp [nudgeAux, he], fun m hm => by omega⟩

/-- The fuel bound in `nudge` always suffices. -/
theorem nudge_spec (keys : List ℚ) (e : ℚ) :
    nudge keys e ∉ keys ∧
      ∃ n : ℕ, nudge keys e = e + n * nudgeEps ∧
        ∀ m : ℕ, m < n → e + m * nudgeEps ∈ keys := by
  apply nudgeAux_spec
  have := List.length_filter_le (fun k => decide (e ≤ k)) keys
  omega

/-- Nudging an energy that is still free leaves it unchanged. -/
theorem nudge_of_notMem (keys : List ℚ) (e : ℚ) (he : e ∉ keys) :
    nudge keys e = e := by
  simp [nudge, nudgeAux, he]

/-- Inserting the same energy a second time lands strictly above the first
key, at a positive natural multiple of the nudge increment. -/
theorem nudge_second (keys : List ℚ) (e : ℚ) :
    nudge keys e ≠ nudge (keys ++ [nudge keys e]) e ∧
      ∃ n : ℕ, 1 ≤ n ∧
        nudge (keys ++ [nudge keys e]) e = nudge keys e + n * nudgeEps := by
  obtain ⟨h1mem, n1, h1eq, h1min⟩ := nudge_spec keys e
  obtain ⟨h2mem, n2, h2eq, h2min⟩ := nudge_spec (keys ++ [nudge keys e]) e
  have h2mem' : nudge (keys ++ [nudge keys e]) e ∉ keys ∧
      nudge (keys ++ [nudge keys e]) e ≠ nudge keys e := by
    constructor
    · intro hk
      exact h2mem (List.mem_append.mpr (Or.inl hk))
    · intro hk
      exact h2mem (List.mem_append.mpr (Or.inr (by simp [hk])))
  have heps : (0 : ℚ) < nudgeEps := by norm_num [nudgeEps]
  have hlt : n1 < n2 := by
    rcases lt_trichotomy n1 n2 with h | h | h
    · exact h
    · exfalso
      apply h2mem'.2
      rw [h2eq, h1eq, h]
    · exfalso
      have := h1min n2 h
      rw [← h2eq] at this
      exact h2mem'.1 this
  refine ⟨fun hk => h2mem'.2 hk.symm, n2 - n1, by omega, ?_⟩
  rw [h2eq, h1eq]
  have : ((n2 - n1 : ℕ) : ℚ) = (n2 : ℚ) - (n1 : ℚ) := by
    push_cast [Nat.cast_sub hlt.le]
    ring
  rw [this]
  ring

/-! ## `read_energy_logfile` (collect_logs.py lines 69-118) -/

/-- The innermost loop of `read_energy_logfile` (lines 113-118): scan forward
for a line with `' T:'` at columns 42-45 and read `tt` from columns 45-48.
This loop has **no** end-of-file check: at end of file Python's `readline`
returns `""` forever and the loop spins; that divergence is the `none`
result here. -/
def scanT : List String → Option (Except String (ℤ × List String))
  | [] => none
  | l :: rest =>
    if pySlice l 42 45 = " T:" then
      match pyInt (pySlice l 45 48) with
      | none => some (.error "ValueError: invalid literal for int()")
      | some tt => some (.ok (tt, rest))
    else scanT rest

theorem scanT_length :
    ∀ ls : List String, ∀ tt rest, scanT ls = some (.ok (tt, rest)) →
      rest.length < ls.length := by
  intro ls
  induction ls with
  | nil => intro tt rest h; simp [scanT] at h
  | cons l t ih =>
    intro tt rest h
    simp only [scanT] at h
    by_cases hc : pySlice l 42 45 = " T:"
    · rw [if_pos hc] at h
      cases hp : pyInt (pySlice l 45 48) with
      | none => rw [hp] at h; simp at h
      | some v =>
        rw [hp] at h
        simp only [Option.some.injEq, Except.ok.injEq, Prod.mk.injEq] at h
        obtain ⟨_, rfl⟩ := h
        simp
    · rw [if_neg hc] at h
      have := ih tt rest h
      simp only [List.length_cons]
      omega

/-- Fuel-bounded middle loop of `read_energy_logfile` (lines 91-118): scan
for lines with `'<H>:'` at columns 6-10, read the eigenstate fields at
their fixed offsets, nudge the energy key until it is free, then scan
forward for the isospin line and insert the record.  Every iteration
consumes at least one line, so fuel exceeding the number of lines never
runs out (`middleLoopF_irrel` below); `middleLoop` instantiates the fuel
accordingly and is therefore an exact model of the unbounded loop. -/
def middleLoopF (filename : String) : ℕ → EnergyTable → List String →
    Option (Except String EnergyTable)
  | 0, _, _ => none
  | _ + 1, tbl, [] => some (.ok tbl)
  | fuel + 1, tbl, l :: rest =>
    if pySlice l 6 10 = "<H>:" then
      match pyInt (pySlice l 0 5), pyFloat (pySlice l 11 22),
            pyInt (pySlice l 45 48), pyInt (pySlice l 57 59) with
      | some n_eig, some energy, some spin, some par =>
        let parity := parity_integer_to_string par
        let key := nudge (tbl.map Prod.fst) energy
        match scanT rest with
        | none => none
        | some (.error msg) => some (.error msg)
        | some (.ok (tt, rest')) =>
          middleLoopF filename fuel (tbl ++ [(key, ⟨filename, spin, parity, n_eig, tt⟩)]) rest'
      | _, _, _, _ => some (.error "ValueError: invalid literal")
    else middleLoopF filename fuel tbl rest

/-- The middle loop of `read_energy_logfile` with its always-sufficient fuel. -/
def middleLoop (filename : String) (tbl : EnergyTable) (lines : List String) :
    Option (Except String EnergyTable) :=
  middleLoopF filename (lines.length + 1) tbl lines

/-- The fuel argument of `middleLoopF` is irrelevant as long as it exceeds
the number of remaining lines. -/
theorem middleLoopF_irrel (filename : String) :
    ∀ (n : ℕ) (lines : List String) (f1 f2 : ℕ) (tbl : EnergyTable),
      lines.length ≤ n → lines.length < f1 → lines.length < f2 →
      middleLoopF filename f1 tbl lines = middleLoopF filename f2 tbl lines := by
  intro n
  induction n with
  | zero =>
    intro lines f1 f2 tbl hn h1 h2
    obtain ⟨g1, rfl⟩ : ∃ g, f1 = g + 1 := ⟨f1 - 1, by omega⟩
    obtain ⟨g2, rfl⟩ : ∃ g, f2 = g + 1 := ⟨f2 - 1, by omega⟩
    have : lines = [] := List.length_eq_zero.mp (by omega)
    subst this
    rfl
  | succ m ih =>
    intro lines f1 f2 tbl hn h1 h2
    obtain ⟨g1, rfl⟩ : ∃ g, f1 = g + 1 := ⟨f1 - 1, by omega⟩
    obtain ⟨g2, rfl⟩ : ∃ g, f2 = g + 1 := ⟨f2 - 1, by omega⟩
    cases lines with
    | nil => rfl
    | cons l rest =>
      simp only [List.length_cons] at hn h1 h2
      simp only [middleLoopF]
      by_cases hc : pySlice l 6 10 = "<H>:"
      · rw [if_pos hc, if_pos hc]
        cases h1' : pyInt (pySlice l 0 5) with
        | none => rfl
        | some n_eig =>
          cases h2' : pyFloat (pySlice l 11 22) with
          | none => rfl
          | some energy =>
            cases h3' : pyInt (pySlice l 45 48) with
            | none => rfl
            | some spin =>
              cases h4' : pyInt (pySlice l 57 59) with
              | none => rfl
              | some par =>
                cases h5 : scanT rest with
                | none => rfl
                | some r =>
                  cases r with
                  | error msg => rfl
                  | ok p =>
                    obtain ⟨tt, rest'⟩ := p
                    have hlt := scanT_length rest tt rest' h5
                    exact ih rest' g1 g2 _ (by omega) (by omega) (by omega)
      · rw [if_neg hc, if_neg hc]
        exact ih rest g1 g2 tbl (by omega) (by omega) (by omega)

/-- `read_energy_logfile` (lines 85-118), on a file given as a list of lines
(each including its newline).  Outer loop: a line of length ≥ 11 whose
first 11 characters differ from `"H converged"` is skipped; otherwise a
line of length ≥ 14 whose first 14 characters differ from
`"H bn converged"` is skipped; any remaining line drops control into the
middle loop.  `none` models non-termination. -/
def read_energy_logfile (filename : String) :
    List String → EnergyTable → Option (Except String EnergyTable)
  | [], tbl => some (.ok tbl)
  | l :: rest, tbl =>
    if 11 ≤ pyLen l ∧ pySlice l 0 11 ≠ "H converged" then
      read_energy_logfile filename rest tbl
    else if 14 ≤ pyLen l ∧ pySlice l 0 14 ≠ "H bn converged" then
      read_energy_logfile filename rest tbl
    else
      middleLoop filename tbl rest

/-- The middle loop with the collision nudge disabled: the parsed energies
themselves become the keys.  This is a proof artifact used to phrase the
"no energy collisions" hypothesis of order-independence; it differs from
`middleLoopF` only in using `energy` in place of the nudged key. -/
def middleLoopRawF (filename : String) : ℕ → List (ℚ × EnergyRecord) → List String →
    Option (Except String (List (ℚ × EnergyRecord)))
  | 0, _, _ => none
  | _ + 1, acc, [] => some (.ok acc)
  | fuel + 1, acc, l :: rest =>
    if pySlice l 6 10 = "<H>:" then
      match pyInt (pySlice l 0 5), pyFloat (pySlice l 11 22),
            pyInt (pySlice l 45 48), pyInt (pySlice l 57 59) with
      | some n_eig, some energy, some spin, some par =>
        let parity := parity_integer_to_string par
        match scanT rest with
        | none => none
        | some (.error msg) => some (.error msg)
        | some (.ok (tt, rest')) =>
          middleLoopRawF filename fuel (acc ++ [(energy, ⟨filename, spin, parity, n_eig, tt⟩)]) rest'
      | _, _, _, _ => some (.error "ValueError: invalid literal")
    else middleLoopRawF filename fuel acc rest

/-- Nudge-free middle loop with its always-sufficient fuel (proof artifact). -/
def middleLoopRaw (filename : String) (acc : List (ℚ × EnergyRecord)) (lines : List String) :
    Option (Except String (List (ℚ × EnergyRecord))) :=
  middleLoopRawF filename (lines.length + 1) acc lines

/-- `read_energy_logfile` with the collision nudge disabled (proof artifact,
see `middleLoopRaw`). -/
def read_energy_logfile_raw (filename : String) :
    List String → List (ℚ × EnergyRecord) → Option (Except String (List (ℚ × EnergyRecord)))
  | [], acc => some (.ok acc)
  | l :: rest, acc =>
    if 11 ≤ pyLen l ∧ pySlice l 0 11 ≠ "H converged" then
      read_energy_logfile_raw filename rest acc
    else if 14 ≤ pyLen l ∧ pySlice l 0 14 ≠ "H bn converged" then
      read_energy_logfile_raw filename rest acc
    else
      middleLoopRaw filename acc rest

/-! ## Claim C1: uniqueness of energy keys -/

/-- The middle loop preserves uniqueness of the energy keys: every inserted
key is first nudged until free. -/
theorem middleLoopF_nodup (filename : String) :
    ∀ (fuel : ℕ) (lines : List String) (tbl T : EnergyTable),
      (tbl.map Prod.fst).Nodup →
      middleLoopF filename fuel tbl lines = some (.ok T) →
      (T.map Prod.fst).Nodup := by
  intro fuel
  induction fuel with
  | zero => intro lines tbl T _ h; simp [middleLoopF] at h
  | succ m ih =>
    intro lines tbl T hnd h
    cases lines with
    | nil =>
      simp only [middleLoopF, Option.some.injEq, Except.ok.injEq] at h
      exact h ▸ hnd
    | cons l rest =>
      simp only [middleLoopF] at h
      by_cases hc : pySlice l 6 10 = "<H>:"
      · rw [if_pos hc] at h
        cases h1 : pyInt (pySlice l 0 5) with
        | none => rw [h1] at h; simp at h
        | some n_eig =>
          cases h2 : pyFloat (pySlice l 11 22) with
          | none => rw [h1, h2] at h; simp at h
          | some energy =>
            cases h3 : pyInt (pySlice l 45 48) with
            | none => rw [h1, h2, h3] at h; simp at h
            | some spin =>
              cases h4 : pyInt (pySlice l 57 59) with
              | none => rw [h1, h2, h3, h4] at h; simp at h
              | some par =>
                rw [h1, h2, h3, h4] at h
                simp only at h
                cases h5 : scanT rest with
                | none => rw [h5] at h; simp at h
                | some r =>
                  rw [h5] at h
                  cases r with
                  | error msg => simp at h
                  | ok p =>
                    obtain ⟨tt, rest'⟩ := p
                    simp only at h
                    refine ih rest' _ T ?_ h
                    simp only [List.map_append, List.map_cons, List.map_nil]
                    rw [List.nodup_append]
                    refine ⟨hnd, List.nodup_singleton _, ?_⟩
                    intro a ha hb
                    simp only [List.mem_singleton] at hb
                    subst hb
                    exact (nudge_spec (tbl.map Prod.fst) energy).1 ha
      · rw [if_neg hc] at h
        exact ih rest tbl T hnd h

/-- The outer loop of `read_energy_logfile` preserves key uniqueness. -/
theorem read_energy_logfile_nodup (filename : String) :
    ∀ (lines : List String) (tbl T : EnergyTable),
      (tbl.map Prod.fst).Nodup →
      read_energy_logfile filename lines tbl = some (.ok T) →
      (T.map Prod.fst).Nodup := by
  intro lines
  induction lines with
  | nil =>
    intro tbl T hnd h
    simp only [read_energy_logfile, Option.some.injEq, Except.ok.injEq] at h
    exact h ▸ hnd
  | cons l rest ih =>
    intro tbl T hnd h
    simp only [read_energy_logfile] at h
    by_cases h1 : 11 ≤ pyLen l ∧ pySlice l 0 11 ≠ "H converged"
    · rw [if_pos h1] at h
      exact ih tbl T hnd h
    · rw [if_neg h1] at h
      by_cases h2 : 14 ≤ pyLen l ∧ pySlice l 0 14 ≠ "H bn converged"
      · rw [if_pos h2] at h
        exact ih tbl T hnd h
      · rw [if_neg h2] at h
        exact middleLoopF_nodup filename _ rest tbl T hnd h

/-- **Claim C1.** After parsing any energy log into a table whose keys were
unique, the keys are still unique, and inserting two records with the same
energy produces two distinct keys that differ by a positive natural
multiple of the `1e-6` MeV nudge increment. -/
theorem energy_key_uniqueness :
    (∀ (filename : String) (lines : List String) (tbl T : EnergyTable),
        (tbl.map Prod.fst).Nodup →
        read_energy_logfile filename lines tbl = some (.ok T) →
        (T.map Prod.fst).Nodup) ∧
    (∀ (tbl : EnergyTable) (e : ℚ) (r1 : EnergyRecord),
        nudge (tbl.map Prod.fst) e ≠
          nudge ((tbl ++ [(nudge (tbl.map Prod.fst) e, r1)]).map Prod.fst) e ∧
        ∃ n : ℕ, 1 ≤ n ∧
          nudge ((tbl ++ [(nudge (tbl.map Prod.fst) e, r1)]).map Prod.fst) e =
            nudge (tbl.map Prod.fst) e + n * nudgeEps) := by
  constructor
  · exact read_energy_logfile_nodup
  · intro tbl e r1
    have hmap : (tbl ++ [(nudge (tbl.map Prod.fst) e, r1)]).map Prod.fst =
        tbl.map Prod.fst ++ [nudge (tbl.map Prod.fst) e] := by
      simp
    rw [hmap]
    exact nudge_second (tbl.map Prod.fst) e

/-- Witness for C1 at a concrete table: the nodup branch at an empty parse,
and the double insertion at energy `0` into an empty table. -/
theorem energy_key_uniqueness_witness :
    read_energy_logfile "f" [] [] = some (.ok []) ∧
      (([] : EnergyTable).map Prod.fst).Nodup ∧
      nudge (([] : EnergyTable).map Prod.fst) 0 ≠
        nudge ((([] : EnergyTable) ++
          [(nudge (([] : EnergyTable).map Prod.fst) 0,
            EnergyRecord.mk "f" 0 "+" 1 0)]).map Prod.fst) 0 :=
  ⟨by rfl,
   energy_key_uniqueness.1 "f" [] [] [] (by decide) (by rfl),
   (energy_key_uniqueness.2 [] 0 (EnergyRecord.mk "f" 0 "+" 1 0)).1⟩

/-! ## Claim C2: the Weisskopf unit converter -/

/-- **Claim C2.** For a designator with class character `c` and rank
`l ≥ 1`, the converter returns
`B_w = 1.2^(2l)/(4π)·(3/(l+3))²·A^(2l/3)` with unit suffix `fm^(2l)` for
class E, and `B_w = (10/π)·1.2^(2l-2)·(3/(l+3))²·A^((2l-2)/3)` for class
M with unit suffix `fm^(2l-2)` except for M1, whose label carries no
length-dimension suffix; it fails with an invalid-input error exactly when
the class is neither E nor M. -/
theorem weisskopf_unit_spec (mt : String) (c : Char) (rest : List Char)
    (l mass : ℤ) (hl : 1 ≤ l)
    (hrank : pyInt (pySliceFrom mt 1) = some l)
    (hhead : mt.toList = c :: rest) :
    (c.toUpper = 'E' →
      weisskopf_unit mt mass =
        .ok ((6 / 5 : ℝ) ^ (2 * l) / (4 * Real.pi) * ((3 : ℝ) / ((l : ℝ) + 3)) ^ 2 *
              (mass : ℝ) ^ ((2 * (l : ℝ)) / 3),
             "e^2 fm^" ++ toString (2 * l))) ∧
    (c.toUpper = 'M' →
      weisskopf_unit mt mass =
        .ok ((10 : ℝ) / Real.pi * (6 / 5 : ℝ) ^ (2 * l - 2) * ((3 : ℝ) / ((l : ℝ) + 3)) ^ 2 *
              (mass : ℝ) ^ ((2 * (l : ℝ) - 2) / 3),
             if l = 1 then "mu_N^2  " else "mu_N^2 fm^" ++ toString (2 * l - 2))) ∧
    ((∃ msg, weisskopf_unit mt mass = .error msg) ↔
      c.toUpper ≠ 'E' ∧ c.toUpper ≠ 'M') := by
  have h12 : (1.2 : ℝ) = (6 / 5 : ℝ) := by norm_num
  refine ⟨?_, ?_, ?_⟩
  · intro hE
    simp only [weisskopf_unit, hrank, hhead, hE, h12, eq_self_iff_true, if_true]
  · intro hM
    simp only [weisskopf_unit, hrank, hhead, hM, h12]
    rw [if_neg (show ¬ (('M' : Char) = 'E') by decide), if_pos trivial]
  · constructor
    · rintro ⟨msg, hmsg⟩
      simp only [weisskopf_unit, hrank, hhead] at hmsg
      by_cases hE : c.toUpper = 'E'
      · rw [if_pos hE] at hmsg
        exact absurd hmsg (by simp)
      · rw [if_neg hE] at hmsg
        by_cases hM : c.toUpper = 'M'
        · rw [if_pos hM] at hmsg
          exact absurd hmsg (by simp)
        · exact ⟨hE, hM⟩
    · rintro ⟨hE, hM⟩
      exact ⟨"Got invalid multipole type: '" ++ mt ++ "'.",
        by simp only [weisskopf_unit, hrank, hhead, if_neg hE, if_neg hM]⟩

/-- Witness for C2 at the designator `"E2"` with mass `20`. -/
theorem weisskopf_unit_spec_witness :
    (1 : ℤ) ≤ 2 ∧ pyInt (pySliceFrom "E2" 1) = some 2 ∧
      String.toList "E2" = 'E' :: ['2'] ∧
      weisskopf_unit "E2" 20 =
        .ok ((6 / 5 : ℝ) ^ (2 * (2 : ℤ)) / (4 * Real.pi) *
              ((3 : ℝ) / (((2 : ℤ) : ℝ) + 3)) ^ 2 *
              ((20 : ℤ) : ℝ) ^ ((2 * ((2 : ℤ) : ℝ)) / 3),
             "e^2 fm^" ++ toString (2 * (2 : ℤ))) :=
  ⟨by norm_num, by decide, by decide,
   (weisskopf_unit_spec "E2" 'E' ['2'] 2 20 (by norm_num) (by decide) (by decide)).1
     (by decide)⟩

theorem string_append_assoc (a b c : String) : a ++ b ++ c = a ++ (b ++ c) := by
  apply String.ext
  simp [String.data_append, List.append_assoc]

/-- **Claim C7.** A non-negative doubled spin renders as the exact
half-integer (an integer string when even, `"s/2"` when odd, so that the
rendered value doubled gives back `s`); a negative doubled spin renders as
the literal decimal integer, unconverted. -/
theorem spin_to_string_spec (s : ℤ) :
    (0 ≤ s → s % 2 = 0 → spin_to_string s = toString (s / 2)) ∧
    (0 ≤ s → s % 2 = 1 → spin_to_string s = toString s ++ "/2") ∧
    (s < 0 → spin_to_string s = toString s) ∧
    (0 ≤ s → 2 * ((s : ℚ) / 2) = (s : ℚ)) := by
  refine ⟨?_, ?_, ?_, fun _ => by ring⟩
  · intro h0 he
    have hns : ¬ s < 0 := by omega
    obtain ⟨k, hk⟩ : ∃ k, s = 2 * k := ⟨s / 2, by omega⟩
    subst hk
    have hdiv : (2 * k) / 2 = k := by omega
    simp only [spin_to_string, if_neg hns, hdiv]
    have hq : ((2 * k : ℤ) : ℚ) / 2 = ((k : ℤ) : ℚ) := by push_cast; ring
    rw [hq, Rat.den_intCast, Rat.num_intCast, if_pos rfl]
  · intro h0 he
    have hns : ¬ s < 0 := by omega
    have hodd : Odd s := Int.odd_iff.mpr he
    have hcop : Nat.Coprime s.natAbs (2 : ℤ).natAbs := by
      have : (2 : ℤ).natAbs = 2 := rfl
      rw [this]
      exact Nat.coprime_two_right.mpr (Int.natAbs_odd.mpr hodd)
    have hq : (s : ℚ) / 2 = (s : ℚ) / ((2 : ℤ) : ℚ) := by norm_num
    have hnum : ((s : ℚ) / 2).num = s := by
      rw [hq]
      exact Rat.num_div_eq_of_coprime (by norm_num) hcop
    have hden : (((s : ℚ) / 2).den : ℤ) = 2 := by
      rw [hq]
      exact Rat.den_div_eq_of_coprime (by norm_num) hcop
    have hden' : ((s : ℚ) / 2).den = 2 := by exact_mod_cast hden
    simp only [spin_to_string, if_neg hns, hnum, hden']
    rw [if_neg (by norm_num)]
    rw [string_append_assoc]
    rfl
  · intro h
    simp [spin_to_string, h]

/-- Witness for C7 at `s = 3`, `s = 4` and `s = -1`. -/
theorem spin_to_string_spec_witness :
    ((0 : ℤ) ≤ 3 ∧ (3 : ℤ) % 2 = 1 ∧ spin_to_string 3 = toString (3 : ℤ) ++ "/2") ∧
    ((0 : ℤ) ≤ 4 ∧ (4 : ℤ) % 2 = 0 ∧ spin_to_string 4 = toString ((4 : ℤ) / 2)) ∧
    ((-1 : ℤ) < 0 ∧ spin_to_string (-1) = toString (-1 : ℤ)) :=
  ⟨⟨by norm_num, by norm_num, (spin_to_string_spec 3).2.1 (by norm_num) (by norm_num)⟩,
   ⟨by norm_num, by norm_num, (spin_to_string_spec 4).1 (by norm_num) (by norm_num)⟩,
   ⟨by norm_num, (spin_to_string_spec (-1)).2.2.1 (by norm_num)⟩⟩

/-! ## Claim C10: the parity formatter -/

/-- **Claim C10.** The parity formatter is total on `ℤ` and returns `"+"`
exactly on input `1`; every other integer (including `0` and values other
than `-1`) maps to `"-"`, so no parity value is ever rejected. -/
theorem parity_integer_to_string_spec (i : ℤ) :
    (parity_integer_to_string i = "+" ↔ i = 1) ∧
    (parity_integer_to_string i = "-" ↔ i ≠ 1) := by
  by_cases h : i = 1
  · subst h
    refine ⟨⟨fun _ => rfl, fun _ => rfl⟩, ⟨fun hc => ?_, fun hc => absurd rfl hc⟩⟩
    rw [parity_integer_to_string, if_pos rfl] at hc
    exact absurd hc (by decide)
  · refine ⟨⟨fun hc => ?_, fun hc => absurd hc h⟩, ⟨fun _ => h, fun _ => ?_⟩⟩
    · rw [parity_integer_to_string, if_neg h] at hc
      exact absurd hc (by decide)
    · rw [parity_integer_to_string, if_neg h]

/-! ## `read_transit_logfile` / `read_transit_logfile_old`
(collect_logs.py lines 149-317 and 319-492) -/

/-- One formatted output line of a transition block, kept as the tuple of
fields that are printed, in print order (left group first). -/
structure TransitEntry where
  Ji : String
  pi_i : String
  idx_i : ℤ
  Ex_i : ℚ
  Jf : String
  pi_f : String
  idx_f : ℤ
  Ex_f : ℚ
  dE : ℚ
  B1 : ℚ
  B1_wu : ℝ
  B2 : ℚ
  B2_wu : ℝ

/-- The `ℚ`-valued printed fields of a `TransitEntry` (projection used to
state decidable facts about concrete runs). -/
def TransitEntry.q (e : TransitEntry) : String × String × ℤ × ℚ × String × String × ℤ × ℚ × ℚ × ℚ × ℚ :=
  (e.Ji, e.pi_i, e.idx_i, e.Ex_i, e.Jf, e.pi_f, e.idx_f, e.Ex_f, e.dE, e.B1, e.B2)

/-- Python `dict` lookup (keys are unique, first match). -/
def dictLookup {κ ν : Type} [DecidableEq κ] : List (κ × ν) → κ → Option ν
  | [], _ => none
  | (k, v) :: t, key => if k = key then some v else dictLookup t key

/-- Python `dict` assignment: overwrite in place if the key exists,
append otherwise. -/
def dictInsert {κ ν : Type} [DecidableEq κ] (tbl : List (κ × ν)) (k : κ) (v : ν) :
    List (κ × ν) :=
  if k ∈ tbl.map Prod.fst then
    tbl.map (fun p => if p.1 = k then (k, v) else p)
  else tbl ++ [(k, v)]

/-- The `n_jnp` global dictionary: `(spin, parity, n_eig) ↦ global index`. -/
abbrev NJnp := List ((ℤ × String × ℤ) × ℤ)

/-- Local variables accumulated by the header phase of a transition-log
parse; `none` models a Python local that was never assigned (using it
raises). -/
structure TransitHeader where
  mass_save : ℤ
  B_weisskopf : Option ℝ
  unit_weisskopf : Option String
  fn_l : Option String
  fn_r : Option String

/-- `ls[i]` with Python's `IndexError`, then `int(...)`. -/
def pyIntAt (ls : List String) (i : ℕ) : Except String ℤ :=
  match ls.get? i with
  | none => .error "IndexError: list index out of range"
  | some s =>
    match pyInt s with
    | none => .error "ValueError: invalid literal for int()"
    | some v => .ok v

/-- `ls[i]` with Python's `IndexError`, then `float(...)`. -/
def pyFloatAt (ls : List String) (i : ℕ) : Except String ℚ :=
  match ls.get? i with
  | none => .error "IndexError: list index out of range"
  | some s =>
    match pyFloat s with
    | none => .error "ValueError: could not convert string to float"
    | some v => .ok v

/-- The header phase shared by both transition-log parsers (lines 340-389 of
the current variant, identically lines 171-220 of the legacy one): skip
blank lines; on a `mass=` line parse the mass, check it against any
previously seen mass (`RuntimeError` on mismatch) and precompute the
Weisskopf unit; record the left/right wavefunction file names; stop at the
`"<multipole> transition"` announcement, returning the trailing parity
integers converted to strings, the diagonal flag, and the remaining lines;
at end of file return `none` for the announcement. -/
noncomputable def headerLoop (multipole_type : String) :
    TransitHeader → List String →
    Except String (TransitHeader × Option (String × String × Bool × List String))
  | st, [] => .ok (st, none)
  | st, l :: rest =>
    let ls := pySplit l
    if ls = [] then headerLoop multipole_type st rest
    else
      match findSub l.toList ("mass=".toList) with
      | some n =>
        match pyInt (pySlice l (n + 5) (n + 8)) with
        | none => .error "ValueError: invalid literal for int()"
        | some mass =>
          let mass_save := if st.mass_save = 0 then mass else st.mass_save
          if mass_save ≠ mass then
            .error "RuntimeError: ERROR  mass"
          else
            match weisskopf_unit multipole_type mass with
            | .error e => .error e
            | .ok (bw, uw) =>
              headerLoop multipole_type
                { st with mass_save := mass_save, B_weisskopf := some bw,
                          unit_weisskopf := some uw } rest
      | none =>
        if ls.headD "" = "fn_load_wave_l" then
          match ls.get? 2 with
          | none => .error "IndexError: list index out of range"
          | some fn => headerLoop multipole_type { st with fn_l := some fn } rest
        else if ls.headD "" = "fn_load_wave_r" then
          match ls.get? 2 with
          | none => .error "IndexError: list index out of range"
          | some fn => headerLoop multipole_type { st with fn_r := some fn } rest
        else if pyContains l (multipole_type ++ " transition") then
          match pyIntAt ls (ls.length - 2), pyIntAt ls (ls.length - 1) with
          | .ok pf, .ok pin =>
            match st.fn_l, st.fn_r with
            | some a, some b =>
              .ok (st, some (parity_integer_to_string pf, parity_integer_to_string pin,
                             a = b, rest))
            | _, _ => .error "NameError: filename_wavefunction is not defined"
          | .error e, _ => .error e
          | _, .error e => .error e
        else headerLoop multipole_type st rest

/-- Context for the table phase of a transition-log parse. -/
structure TransitCtx where
  parity_final : String
  parity_initial : String
  is_diag : Bool
  B_weisskopf : Option ℝ
  n_jnp : NJnp
  E_gs : ℚ

/-- Common post-processing of one parsed transition record (lines 439-490 /
266-315): normalize to Weisskopf units, drop self-transitions, drop
negative-gamma records of diagonal blocks, drop below-threshold records,
snap near-zero excitation energies, re-index through `n_jnp`
(`KeyError` on a missing endpoint), orient by the sign of the gamma
energy, and store the formatted entry under its composite sort key. -/
noncomputable def storeTransit (ctx : TransitCtx) (out_e : List (ℚ × TransitEntry))
    (spin_final idx_1 : ℤ) (E_final0 : ℚ) (spin_initial idx_2 : ℤ)
    (E_initial0 : ℚ) (dE B_decay B_excite : ℚ) :
    Except String (List (ℚ × TransitEntry)) :=
  let E_final := E_final0 - ctx.E_gs
  let E_initial := E_initial0 - ctx.E_gs
  match ctx.B_weisskopf with
  | none => .error "UnboundLocalError: B_weisskopf referenced before assignment"
  | some bw =>
    let B_weisskopf_decay : ℝ := (B_decay : ℝ) / bw
    let B_weisskopf_excite : ℝ := (B_excite : ℝ) / bw
    if spin_final = spin_initial ∧ idx_1 = idx_2 then .ok out_e
    else if ctx.is_diag = true ∧ dE < 0 then .ok out_e
    else if B_weisskopf_decay < weisskopf_threshold then .ok out_e
    else if B_weisskopf_excite < weisskopf_threshold then .ok out_e
    else
      let E_final := if |E_final| < 1 / 1000 then 0 else E_final
      let E_initial := if |E_initial| < 1 / 1000 then 0 else E_initial
      match dictLookup ctx.n_jnp (spin_final, ctx.parity_final, idx_1),
            dictLookup ctx.n_jnp (spin_initial, ctx.parity_initial, idx_2) with
      | some g1, some g2 =>
        if dE > 0 then
          let entry : TransitEntry :=
            ⟨spin_to_string spin_initial, ctx.parity_initial, g2, E_initial,
             spin_to_string spin_final, ctx.parity_final, g1, E_final,
             dE, B_excite, B_weisskopf_excite, B_decay, B_weisskopf_decay⟩
          let key : ℚ := E_initial + E_final * (1 / 10 ^ 5) +
            (spin_initial : ℚ) * (1 / 10 ^ 10) + (g2 : ℚ) * (1 / 10 ^ 11) +
            (spin_final : ℚ) * (1 / 10 ^ 13) + (g1 : ℚ) * (1 / 10 ^ 14)
          .ok (dictInsert out_e key entry)
        else
          let entry : TransitEntry :=
            ⟨spin_to_string spin_final, ctx.parity_final, g1, E_final,
             spin_to_string spin_initial, ctx.parity_initial, g2, E_initial,
             -dE, B_decay, B_weisskopf_decay, B_excite, B_weisskopf_excite⟩
          let key : ℚ := E_final + E_initial * (1 / 10 ^ 5) +
            (spin_final : ℚ) * (1 / 10 ^ 10) + (g1 : ℚ) * (1 / 10 ^ 11) +
            (spin_initial : ℚ) * (1 / 10 ^ 12) + (g2 : ℚ) * (1 / 10 ^ 14)
          .ok (dictInsert out_e key entry)
      | _, _ => .error "KeyError: n_jnp"

/-- One data line of the current (whitespace-delimited, 11-field) layout
(lines 412-438), fed into the common post-processing. -/
noncomputable def processTransitLineNew (ctx : TransitCtx)
    (out_e : List (ℚ × TransitEntry)) (l : String) :
    Except String (List (ℚ × TransitEntry)) := do
  let ls := pySplit l
  let spin_final ← pyIntAt ls 0
  let idx_1 ← pyIntAt ls 1
  let E_final0 ← pyFloatAt ls 2
  let spin_initial ← pyIntAt ls 3
  let idx_2 ← pyIntAt ls 4
  let E_initial0 ← pyFloatAt ls 5
  let dE ← pyFloatAt ls 6
  let _Mred ← pyFloatAt ls 7
  let B_decay ← pyFloatAt ls 8
  let B_excite ← pyFloatAt ls 9
  let _Mom ← pyFloatAt ls 10
  storeTransit ctx out_e spin_final idx_1 E_final0 spin_initial idx_2 E_initial0
    dE B_decay B_excite

/-- `float(line[a:b])` with Python's `ValueError`. -/
def pyFloatSlice (l : String) (a b : ℕ) : Except String ℚ :=
  match pyFloat (pySlice l a b) with
  | none => .error "ValueError: could not convert string to float"
  | some v => .ok v

/-- `int(line[a:b])` with Python's `ValueError`. -/
def pyIntSlice (l : String) (a b : ℕ) : Except String ℤ :=
  match pyInt (pySlice l a b) with
  | none => .error "ValueError: invalid literal for int()"
  | some v => .ok v

/-- One data line of the legacy fixed-column layout (lines 259-269), fed
into the common post-processing. -/
noncomputable def processTransitLineOld (ctx : TransitCtx)
    (out_e : List (ℚ × TransitEntry)) (l : String) :
    Except String (List (ℚ × TransitEntry)) := do
  let spin_final ← pyIntSlice l 0 2
  let idx_1 ← pyIntSlice l 3 7
  let spin_initial ← pyIntSlice l 17 19
  let idx_2 ← pyIntSlice l 20 24
  let dE ← pyFloatSlice l 34 42
  let E_final0 ← pyFloatSlice l 8 17
  let E_initial0 ← pyFloatSlice l 25 34
  let B_decay ← pyFloatSlice l 52 62
  let B_excite ← pyFloatSlice l 62 72
  storeTransit ctx out_e spin_final idx_1 E_final0 spin_initial idx_2 E_initial0
    dE B_decay B_excite

/-- The table phase of the current variant (lines 392-490): stop at the
first blank line (or end of file), skip `pn=` lines, process every other
line as one transition record. -/
noncomputable def tablePhaseNew (ctx : TransitCtx) :
    List (ℚ × TransitEntry) → List String → Except String (List (ℚ × TransitEntry))
  | out_e, [] => .ok out_e
  | out_e, l :: rest =>
    if pySplit l = [] then .ok out_e
    else if pyStartswith l "pn=" then tablePhaseNew ctx out_e rest
    else
      match processTransitLineNew ctx out_e l with
      | .error e => .error e
      | .ok out' => tablePhaseNew ctx out' rest

/-- The table phase of the legacy variant (lines 223-315). -/
noncomputable def tablePhaseOld (ctx : TransitCtx) :
    List (ℚ × TransitEntry) → List String → Except String (List (ℚ × TransitEntry))
  | out_e, [] => .ok out_e
  | out_e, l :: rest =>
    if pySplit l = [] then .ok out_e
    else if pyStartswith l "pn=" then tablePhaseOld ctx out_e rest
    else
      match processTransitLineOld ctx out_e l with
      | .error e => .error e
      | .ok out' => tablePhaseOld ctx out' rest

/-- `read_transit_logfile` (lines 319-492): header phase, skip exactly one
table-header line, table phase, then return
`(unit_weisskopf, out_e, mass_save)` (referencing the unit label raises if
no `mass=` line was ever seen). -/
noncomputable def read_transit_logfile (lines : List String) (multipole_type : String)
    (n_jnp : NJnp) (E_gs : ℚ) :
    Except String (String × List (ℚ × TransitEntry) × ℤ) :=
  match headerLoop multipole_type ⟨0, none, none, none, none⟩ lines with
  | .error e => .error e
  | .ok (st, none) =>
    match st.unit_weisskopf with
    | none => .error "UnboundLocalError: unit_weisskopf referenced before assignment"
    | some uw => .ok (uw, [], st.mass_save)
  | .ok (st, some (pf, pin, diag, rest)) =>
    match tablePhaseNew ⟨pf, pin, diag, st.B_weisskopf, n_jnp, E_gs⟩ [] (rest.drop 1) with
    | .error e => .error e
    | .ok out_e =>
      match st.unit_weisskopf with
      | none => .error "UnboundLocalError: unit_weisskopf referenced before assignment"
      | some uw => .ok (uw, out_e, st.mass_save)

/-- `read_transit_logfile_old` (lines 149-317): identical to
`read_transit_logfile` except for the fixed-column table layout. -/
noncomputable def read_transit_logfile_old (lines : List String) (multipole_type : String)
    (n_jnp : NJnp) (E_gs : ℚ) :
    Except String (String × List (ℚ × TransitEntry) × ℤ) :=
  match headerLoop multipole_type ⟨0, none, none, none, none⟩ lines with
  | .error e => .error e
  | .ok (st, none) =>
    match st.unit_weisskopf with
    | none => .error "UnboundLocalError: unit_weisskopf referenced before assignment"
    | some uw => .ok (uw, [], st.mass_save)
  | .ok (st, some (pf, pin, diag, rest)) =>
    match tablePhaseOld ⟨pf, pin, diag, st.B_weisskopf, n_jnp, E_gs⟩ [] (rest.drop 1) with
    | .error e => .error e
    | .ok out_e =>
      match st.unit_weisskopf with
      | none => .error "UnboundLocalError: unit_weisskopf referenced before assignment"
      | some uw => .ok (uw, out_e, st.mass_save)

/-! ## `collect_logs` (collect_logs.py lines 494-636)

The directory scan and the interactive isotope disambiguation (lines
524-543) live outside the embedding: `collect_logs` receives the energy
logs (filename and lines) and the transition logs (lines) it would have
selected.  The generated summary filename (lines 588-600) is likewise
external; the summary is returned as structured content. -/

/-- Fold of `read_energy_logfile` over every energy log (lines 557-558). -/
def gatherEnergies : List (String × List String) → EnergyTable →
    Option (Except String EnergyTable)
  | [], tbl => some (.ok tbl)
  | (fname, lines) :: rest, tbl =>
    match read_energy_logfile fname lines tbl with
    | none => none
    | some (.error e) => some (.error e)
    | some (.ok tbl') => gatherEnergies rest tbl'

/-- Ascending energies, `sorted(E_data.keys())` (line 565). -/
def sortedEnergies (tbl : EnergyTable) : List ℚ :=
  List.insertionSort (· ≤ ·) (tbl.map Prod.fst)

/-- The index-assignment loop (lines 566-583): walk the sorted energies,
count the occurrences of each `(spin, parity)` pair, record the running
count in `n_jnp` under `(spin, parity, n_eig)` and overwrite the record's
eigenstate number with the count. -/
def assignAux (tbl : EnergyTable) :
    List ℚ → List ((ℤ × String) × ℤ) → NJnp → EnergyTable → NJnp × EnergyTable
  | [], _, njnp, acc => (njnp, acc)
  | e :: rest, occ, njnp, acc =>
    match dictLookup tbl e with
    | none => assignAux tbl rest occ njnp acc
    | some r =>
      let c := (dictLookup occ (r.spin, r.parity)).getD 0 + 1
      assignAux tbl rest (dictInsert occ (r.spin, r.parity) c)
        (dictInsert njnp (r.spin, r.parity, r.n_eig) c)
        (acc ++ [(e, { r with n_eig := c })])

/-- `n_jnp` and the re-indexed table in ascending-energy order. -/
def buildIndex (tbl : EnergyTable) : NJnp × EnergyTable :=
  assignAux tbl (sortedEnergies tbl) [] [] []

/-- One row of the levels block (lines 605-615), in print order. -/
structure LevelRow where
  N : ℕ
  J : String
  prty : String
  N_Jp : ℤ
  T : String
  E : ℚ
  Ex : ℚ
  logfile : String
  deriving DecidableEq, Repr

/-- The levels block: running 1-based index, spin and isospin strings,
absolute and ground-state-subtracted energies, source file. -/
def levelRows (sortedTbl : EnergyTable) (egs : ℚ) : List LevelRow :=
  sortedTbl.enum.map (fun p =>
    ⟨p.1 + 1, spin_to_string p.2.2.spin, p.2.2.parity, p.2.2.n_eig,
     spin_to_string p.2.2.tt, p.2.1, p.2.1 - egs, p.2.2.filename⟩)

/-- `output_e.update(out_e)` (line 627). -/
def dictUpdate {κ ν : Type} [DecidableEq κ] (tbl upd : List (κ × ν)) : List (κ × ν) :=
  upd.foldl (fun t p => dictInsert t p.1 p.2) tbl

/-- The inner file loop of the transition phase (lines 622-627): parse every
transition log for one multipole type, merging the keyed entries; `mass`
is whatever the last parsed file reported. -/
noncomputable def transitFold (old : Bool) (mt : String) (njnp : NJnp) (egs : ℚ) :
    List (List String) → List (ℚ × TransitEntry) → ℤ →
    Except String (List (ℚ × TransitEntry) × ℤ)
  | [], out, m => .ok (out, m)
  | f :: rest, out, _ =>
    match (if old then read_transit_logfile_old f mt njnp egs
           else read_transit_logfile f mt njnp egs) with
    | .error e => .error e
    | .ok (_, out_e, mass) => transitFold old mt njnp egs rest (dictUpdate out out_e) mass

/-- One printed transition block: its announcement header (lines 629-632)
and its key-sorted surviving rows (lines 634-635). -/
structure TransitBlock where
  multipole : String
  mass : ℤ
  B_weisskopf : ℝ
  unit_weisskopf : String
  rows : List TransitEntry

/-- Assemble the block for one multipole type: merge all files, recompute
the Weisskopf unit from the last file's mass, sort the entries by their
composite keys. -/
noncomputable def transitBlock (old : Bool) (njnp : NJnp) (egs : ℚ)
    (tfs : List (List String)) (mt : String) : Except String TransitBlock :=
  match transitFold old mt njnp egs tfs [] 0 with
  | .error e => .error e
  | .ok (out, mass) =>
    match weisskopf_unit mt mass with
    | .error e => .error e
    | .ok (bw, uw) =>
      .ok ⟨mt, mass, bw, uw,
           (List.insertionSort (fun a b => a.1 ≤ b.1) out).map Prod.snd⟩

/-- The multipole loop (line 619): one block per type in `["E1","M1","E2"]`. -/
noncomputable def blocksFor (old : Bool) (njnp : NJnp) (egs : ℚ)
    (tfs : List (List String)) : List String → Except String (List TransitBlock)
  | [] => .ok []
  | mt :: rest =>
    match transitBlock old njnp egs tfs mt with
    | .error e => .error e
    | .ok b =>
      match blocksFor old njnp egs tfs rest with
      | .error e => .error e
      | .ok bs => .ok (b :: bs)

/-- The structured content of the written summary file. -/
structure Summary where
  levels : List LevelRow
  blocks : List TransitBlock

/-- `collect_logs` (lines 494-636).  Returns `none` on divergence, an error
on any raised exception, and otherwise the summary content together with
the "no transition files" warning flag. -/
noncomputable def collect_logs (energy_log_files : List (String × List String))
    (transit_log_files : List (List String)) (old_or_new : String) :
    Option (Except String (Summary × Bool)) :=
  if ¬ (pyLower old_or_new = "new" ∨ pyLower old_or_new = "old") then
    some (.error "ValueError: old_or_new must be in ['new', 'old']")
  else if energy_log_files = [] then
    some (.error "FileNotFoundError: No energy log files in path")
  else
    let warned := transit_log_files = []
    match gatherEnergies energy_log_files [] with
    | none => none
    | some (.error e) => some (.error e)
    | some (.ok tbl) =>
      if tbl = [] then
        some (.error "RuntimeError: No energy data has been read from energy logs!")
      else
        let energies := sortedEnergies tbl
        let p := buildIndex tbl
        let egs := energies.headD 0
        let levels := levelRows p.2 egs
        if transit_log_files = [] then some (.ok (⟨levels, []⟩, warned))
        else
          match blocksFor (pyLower old_or_new = "old") p.1 egs transit_log_files
              ["E1", "M1", "E2"] with
          | .error e => some (.error e)
          | .ok bs => some (.ok (⟨levels, bs⟩, warned))

/-! ## Claims C6 and C9: the convergence-marker gate and termination -/

/-- An eigenstate record line with `n_eig = 1`, energy `-20.0`, doubled spin
`0`, parity `+1`, at the fixed column offsets of `read_energy_logfile`. -/
def recLineC6 : String :=
  "    1 <H>:   -20.00000                         0          1\n"

/-- An isospin line with `tt = 0` (`' T:'` at columns 42-45). -/
def ttLine0 : String :=
  "                                           T:  0\n"

/-- **Claim C6 (refuted: code bug).** A file whose first line is shorter
than 11 characters falls straight into the eigenstate-extraction loop even
though it contains no convergence marker at all: the parser returns a
non-empty table.  (A line of length ≥ 11 that is not `"H converged"` is
skipped by the first check, and a line starting `"H bn converged"` is
*also* skipped by it, so the `"H bn converged"` branch is dead code; only
short lines and exact `"H converged"` lines reach the extraction loop.) -/
theorem energy_marker_bug :
    read_energy_logfile "f" ["x\n", recLineC6, ttLine0] [] =
      some (.ok [((-20 : ℚ), ⟨"f", 0, "+", 1, 0⟩)]) ∧
    (∀ l ∈ ["x\n", recLineC6, ttLine0],
      pySlice l 0 11 ≠ "H converged" ∧ pySlice l 0 14 ≠ "H bn converged") := by
  constructor
  · with_unfolding_all rfl
  · decide

/-- **Claim C9 (refuted: code bug).** The forward scan for the isospin
column marker has no end-of-file guard (unlike the two enclosing loops):
on a file whose last record line is never followed by a `' T:'` line,
Python's `readline` returns `""` forever and the loop spins.  In the
embedding the divergence surfaces as the `none` result, already on the
bare scan (`scanT [] = none`) and hence for the whole parse of this
concrete file. -/
theorem energy_scan_divergence :
    read_energy_logfile "f" ["x\n", recLineC6] [] = none ∧ scanT [] = none := by
  exact ⟨by with_unfolding_all rfl, rfl⟩

/-! ## Claim C8: failure semantics of the aggregation -/

/-- **Claim C8.** With no energy log files the run fails fatally
(`FileNotFoundError`); with energy logs whose parse yields an empty table
it fails fatally (`RuntimeError`); with a non-empty energy table and no
transition log files it completes, returns the warning flag, and the
summary consists of the levels block with no transition blocks. -/
theorem collect_logs_failure_semantics (efs : List (String × List String))
    (tfs : List (List String)) :
    (efs = [] → collect_logs efs tfs "new" =
        some (.error "FileNotFoundError: No energy log files in path")) ∧
    (∀ T, efs ≠ [] → gatherEnergies efs [] = some (.ok T) → T = [] →
        collect_logs efs tfs "new" =
          some (.error "RuntimeError: No energy data has been read from energy logs!")) ∧
    (∀ T, efs ≠ [] → gatherEnergies efs [] = some (.ok T) → T ≠ [] →
        collect_logs efs [] "new" =
          some (.ok (⟨levelRows (buildIndex T).2 ((sortedEnergies T).headD 0), []⟩,
                     true))) := by
  have hlow : pyLower "new" = "new" := by decide
  refine ⟨?_, ?_, ?_⟩
  · intro h
    subst h
    simp [collect_logs, hlow]
  · intro T hne hg hT
    subst hT
    simp [collect_logs, hg, hne, hlow]
  · intro T hne hg hT
    simp [collect_logs, hg, hne, hT, hlow]

/-- Witness for C8: an empty directory, an energy log with no usable
records, and an energy log with one eigenstate and no transition logs. -/
theorem collect_logs_failure_semantics_witness :
    collect_logs [] [] "new" =
      some (.error "FileNotFoundError: No energy log files in path") ∧
    (gatherEnergies [("g", ["hello\n"])] [] = some (.ok []) ∧
      collect_logs [("g", ["hello\n"])] [] "new" =
        some (.error "RuntimeError: No energy data has been read from energy logs!")) ∧
    (gatherEnergies [("f", ["H converged\n", recLineC6, ttLine0])] [] =
        some (.ok [((-20 : ℚ), ⟨"f", 0, "+", 1, 0⟩)]) ∧
      collect_logs [("f", ["H converged\n", recLineC6, ttLine0])] [] "new" =
        some (.ok (⟨levelRows
          (buildIndex [((-20 : ℚ), ⟨"f", 0, "+", 1, 0⟩)]).2
          ((sortedEnergies [((-20 : ℚ), ⟨"f", 0, "+", 1, 0⟩)]).headD 0), []⟩, true))) :=
  ⟨(collect_logs_failure_semantics [] []).1 rfl,
   ⟨by with_unfolding_all rfl,
    (collect_logs_failure_semantics [("g", ["hello\n"])] []).2.1 []
      (by decide) (by with_unfolding_all rfl) rfl⟩,
   ⟨by with_unfolding_all rfl,
    (collect_logs_failure_semantics [("f", ["H converged\n", recLineC6, ttLine0])] []).2.2
      [((-20 : ℚ), ⟨"f", 0, "+", 1, 0⟩)]
      (by decide) (by with_unfolding_all rfl) (by decide)⟩⟩

/-! ## Claim C3: mass consistency -/

/-- Transition-log header lines used in the mass-consistency scenarios. -/
def massLine50 : String :=
  "N. of valence protons and neutrons =  15 19   mass= 50   n,z-core     8    8\n"

def massLine51 : String :=
  "N. of valence protons and neutrons =  15 19   mass= 51   n,z-core     8    8\n"

def fnlLineA : String := "fn_load_wave_l = a.wav\n"

def fnrLineB : String := "fn_load_wave_r = b.wav\n"

def annLineE2pp : String :=
  " E2 transition  e^2 fm^4  eff_charge=  1.3500  0.3500 parity 1 1\n"

def tblHeaderLine : String :=
  "2Jf   idx  Ef        2Ji   idx  Ei          Ex        Mred.           B(EM )->        B(EM)<-         Mom.\n"

/-- A transition log with mass 50 and an `E2` announcement but no data rows. -/
def transitFile50 : List String :=
  [massLine50, fnlLineA, fnrLineB, annLineE2pp, tblHeaderLine]

/-- The same log but declaring mass 51. -/
def transitFile51 : List String :=
  [massLine51, fnlLineA, fnrLineB, annLineE2pp, tblHeaderLine]

set_option maxRecDepth 100000 in
/-- **Counterexample to Claim C3.** Two transition logs of the same
multipole type declaring different mass numbers (50 and 51) do *not* raise
any error: the aggregation completes, the summary is written, and every
block header silently reports the mass of whichever file was read last.
(The `mass_save` check of `read_transit_logfile` is local to one file:
each call starts from `mass_save = 0`.) -/
theorem transit_mass_cross_file_no_error :
    (read_transit_logfile transitFile50 "E2" [] 0).map (fun r => r.2.2) = .ok 50 ∧
    (read_transit_logfile transitFile51 "E2" [] 0).map (fun r => r.2.2) = .ok 51 ∧
    (collect_logs [("f", ["H converged\n", recLineC6, ttLine0])]
        [transitFile50, transitFile51] "new").map (Except.map (fun p =>
          (p.1.levels,
           p.1.blocks.map (fun b => (b.multipole, b.mass, b.rows.map TransitEntry.q)),
           p.2))) =
      some (.ok ([⟨1, "0", "+", 1, "0", -20, 0, "f"⟩],
                 [("E1", 51, []), ("M1", 51, []), ("E2", 51, [])],
                 false)) := by
  refine ⟨by with_unfolding_all rfl, by with_unfolding_all rfl, ?_⟩
  with_unfolding_all rfl

set_option maxRecDepth 100000 in
/-- **Claim C3 as amended.** The mass consistency check is per-file: within
a single transition log, a `mass=` declaration that differs from a
previously seen one raises `RuntimeError` the moment it is parsed; no
cross-file comparison is performed. -/
theorem transit_mass_mismatch_within_file (mt : String) (st : TransitHeader)
    (l : String) (rest : List String) (n : ℕ) (mass : ℤ)
    (hsplit : pySplit l ≠ [])
    (hfind : findSub l.toList ("mass=".toList) = some n)
    (hmass : pyInt (pySlice l (n + 5) (n + 8)) = some mass)
    (hsave : st.mass_save ≠ 0) (hdiff : st.mass_save ≠ mass) :
    headerLoop mt st (l :: rest) = .error "RuntimeError: ERROR  mass" ∧
    read_transit_logfile [massLine50, massLine51] "E2" [] 0 =
      .error "RuntimeError: ERROR  mass" := by
  constructor
  · simp only [headerLoop, hfind, hmass, if_neg hsplit]
    rw [if_neg hsave, if_pos hdiff]
  · with_unfolding_all rfl

/-- Witness for the amended C3 at the concrete mismatching header state. -/
theorem transit_mass_mismatch_within_file_witness :
    pySplit massLine51 ≠ [] ∧
      findSub massLine51.toList ("mass=".toList) = some 46 ∧
      pyInt (pySlice massLine51 51 54) = some 51 ∧
      (50 : ℤ) ≠ 0 ∧ (50 : ℤ) ≠ 51 ∧
      headerLoop "E2" ⟨50, none, none, none, none⟩ [massLine51] =
        .error "RuntimeError: ERROR  mass" :=
  ⟨by decide, by decide, by decide, by decide, by decide,
   (transit_mass_mismatch_within_file "E2" ⟨50, none, none, none, none⟩
      massLine51 [] 46 51 (by decide) (by decide) (by decide)
      (by decide) (by decide)).1⟩

/-! ## Claim C4: self-transitions -/

theorem except_bind_ok {ε α β : Type} (a : α) (f : α → Except ε β) :
    (Except.ok a : Except ε α) >>= f = f a := rfl

/-- Nonnegative strengths never fall below the (negative) Weisskopf
threshold. -/
theorem no_threshold_cut (B : ℚ) (bw : ℝ) (hB : (0 : ℚ) ≤ B) (hbw : 0 < bw) :
    ¬ ((B : ℝ) / bw < weisskopf_threshold) := by
  rw [not_lt, weisskopf_threshold]
  have h : (0 : ℝ) ≤ (B : ℝ) / bw := div_nonneg (by exact_mod_cast hB) hbw.le
  norm_num
  linarith

/-- **Claim C4 as amended.** A transition whose endpoints carry equal spin
and equal *local* (per-sector eigenstate) index is discarded by the shared
post-processing, hence by both layout variants, before it can reach the
output table. -/
theorem transit_self_local_discard (ctx : TransitCtx) (bw : ℝ)
    (hbw : ctx.B_weisskopf = some bw) (out_e : List (ℚ × TransitEntry)) :
    (∀ (spin idx : ℤ) (Ef0 Ei0 dE Bd Be : ℚ),
      storeTransit ctx out_e spin idx Ef0 spin idx Ei0 dE Bd Be = .ok out_e) ∧
    (∀ (l : String) (spin idx : ℤ) (Ef0 Ei0 dE Mred Bd Be Mom : ℚ),
      pyIntAt (pySplit l) 0 = .ok spin → pyIntAt (pySplit l) 1 = .ok idx →
      pyFloatAt (pySplit l) 2 = .ok Ef0 → pyIntAt (pySplit l) 3 = .ok spin →
      pyIntAt (pySplit l) 4 = .ok idx → pyFloatAt (pySplit l) 5 = .ok Ei0 →
      pyFloatAt (pySplit l) 6 = .ok dE → pyFloatAt (pySplit l) 7 = .ok Mred →
      pyFloatAt (pySplit l) 8 = .ok Bd → pyFloatAt (pySplit l) 9 = .ok Be →
      pyFloatAt (pySplit l) 10 = .ok Mom →
      processTransitLineNew ctx out_e l = .ok out_e) ∧
    (∀ (l : String) (spin idx : ℤ) (Ef0 Ei0 dE Bd Be : ℚ),
      pyIntSlice l 0 2 = .ok spin → pyIntSlice l 3 7 = .ok idx →
      pyIntSlice l 17 19 = .ok spin → pyIntSlice l 20 24 = .ok idx →
      pyFloatSlice l 34 42 = .ok dE → pyFloatSlice l 8 17 = .ok Ef0 →
      pyFloatSlice l 25 34 = .ok Ei0 → pyFloatSlice l 52 62 = .ok Bd →
      pyFloatSlice l 62 72 = .ok Be →
      processTransitLineOld ctx out_e l = .ok out_e) := by
  have hdrop : ∀ (spin idx : ℤ) (Ef0 Ei0 dE Bd Be : ℚ),
      storeTransit ctx out_e spin idx Ef0 spin idx Ei0 dE Bd Be = .ok out_e := by
    intro spin idx Ef0 Ei0 dE Bd Be
    simp only [storeTransit, hbw]
    rw [if_pos ⟨trivial, trivial⟩]
  refine ⟨hdrop, ?_, ?_⟩
  · intro l spin idx Ef0 Ei0 dE Mred Bd Be Mom h0 h1 h2 h3 h4 h5 h6 h7 h8 h9 h10
    simp only [processTransitLineNew, h0, h1, h2, h3, h4, h5, h6, h7, h8, h9, h10,
      except_bind_ok]
    exact hdrop spin idx Ef0 Ei0 dE Bd Be
  · intro l spin idx Ef0 Ei0 dE Bd Be h0 h1 h2 h3 h4 h5 h6 h7 h8
    simp only [processTransitLineOld, h0, h1, h2, h3, h4, h5, h6, h7, h8,
      except_bind_ok]
    exact hdrop spin idx Ef0 Ei0 dE Bd Be

/-- A current-layout data line whose endpoints have equal spin and equal
local index. -/
def selfLineC4 : String := "4 3 -20.000 4 3 -19.500 0.500 1.0 83.0 42.0 0.0\n"

/-- Witness for the amended C4: a concrete self-transition line is dropped. -/
theorem transit_self_local_discard_witness :
    (⟨"+", "+", false, some (1 : ℝ), [], 0⟩ : TransitCtx).B_weisskopf = some (1 : ℝ) ∧
      pyIntAt (pySplit selfLineC4) 0 = .ok 4 ∧
      pyIntAt (pySplit selfLineC4) 1 = .ok 3 ∧
      pyIntAt (pySplit selfLineC4) 3 = .ok 4 ∧
      pyIntAt (pySplit selfLineC4) 4 = .ok 3 ∧
      processTransitLineNew ⟨"+", "+", false, some (1 : ℝ), [], 0⟩ [] selfLineC4 =
        .ok [] :=
  ⟨rfl, by with_unfolding_all rfl, by with_unfolding_all rfl,
   by with_unfolding_all rfl, by with_unfolding_all rfl,
   (transit_self_local_discard ⟨"+", "+", false, some (1 : ℝ), [], 0⟩ 1 rfl []).2.1
     selfLineC4 4 3 (-20) (-39 / 2) (1 / 2) 1 83 42 0
     (by with_unfolding_all rfl) (by with_unfolding_all rfl)
     (by with_unfolding_all rfl) (by with_unfolding_all rfl)
     (by with_unfolding_all rfl) (by with_unfolding_all rfl)
     (by with_unfolding_all rfl) (by with_unfolding_all rfl)
     (by with_unfolding_all rfl) (by with_unfolding_all rfl)
     (by with_unfolding_all rfl)⟩

/-- Announcement line with final parity `+1` and initial parity `-1`. -/
def annLineE2pm : String :=
  " E2 transition  e^2 fm^4  eff_charge=  1.3500  0.3500 parity 1 -1\n"

/-- Data line: spins `4/4`, local indices `3/5`, i.e. different local
indices whose sectors have different parities. -/
def dataLineC4 : String := "4 3 -20.000 4 5 -19.500 0.500 1.0 83.0 42.0 0.0\n"

/-- The transition log of the C4 scenario. -/
def transitFileC4 : List String :=
  [massLine50, fnlLineA, fnrLineB, annLineE2pm, tblHeaderLine, dataLineC4]

/-- Eigenstate `3` of the `4⁺` sector at `-20` MeV. -/
def recSpin4p : String :=
  "    3 <H>:   -20.00000                         4          1\n"

/-- Eigenstate `5` of the `4⁻` sector at `-19.5` MeV. -/
def recSpin4m : String :=
  "    5 <H>:   -19.50000                         4         -1\n"

/-- The energy log of the C4 scenario. -/
def energyFileC4 : List String :=
  ["H converged\n", recSpin4p, ttLine0, recSpin4m, ttLine0]

/-- The energy table the C4 energy log parses to. -/
def tableC4 : EnergyTable :=
  [((-20 : ℚ), ⟨"f", 4, "+", 3, 0⟩), ((-39 / 2 : ℚ), ⟨"f", 4, "-", 5, 0⟩)]

/-- The index table of the C4 scenario: the two states have different
parities and local indices but the *same* global index `1`. -/
def njnpC4 : NJnp := [((4, "+", 3), 1), ((4, "-", 5), 1)]

/-- The Weisskopf estimates `weisskopf_unit` computes for mass 50. -/
noncomputable def bwE1_50 : ℝ :=
  (1.2 : ℝ) ^ (2 * (1 : ℤ)) / (4 * Real.pi) * ((3 : ℝ) / (((1 : ℤ) : ℝ) + 3)) ^ 2 *
    (((50 : ℤ)) : ℝ) ^ ((2 * ((1 : ℤ) : ℝ)) / 3)

noncomputable def bwM1_50 : ℝ :=
  (10 : ℝ) / Real.pi * (1.2 : ℝ) ^ (2 * (1 : ℤ) - 2) * ((3 : ℝ) / (((1 : ℤ) : ℝ) + 3)) ^ 2 *
    (((50 : ℤ)) : ℝ) ^ ((2 * ((1 : ℤ) : ℝ) - 2) / 3)

noncomputable def bwE2_50 : ℝ :=
  (1.2 : ℝ) ^ (2 * (2 : ℤ)) / (4 * Real.pi) * ((3 : ℝ) / (((2 : ℤ) : ℝ) + 3)) ^ 2 *
    (((50 : ℤ)) : ℝ) ^ ((2 * ((2 : ℤ) : ℝ)) / 3)

theorem bwE2_50_pos : 0 < bwE2_50 := by
  unfold bwE2_50
  positivity

/-- The table-phase context of the C4 scenario. -/
noncomputable def ctxC4 : TransitCtx := ⟨"+", "-", false, some bwE2_50, njnpC4, -20⟩

/-- The composite sort key of the surviving C4 record. -/
def keyC4 : ℚ :=
  1 / 2 + 0 * (1 / 10 ^ 5) + 4 * (1 / 10 ^ 10) + 1 * (1 / 10 ^ 11) +
    4 * (1 / 10 ^ 13) + 1 * (1 / 10 ^ 14)

/-- The surviving C4 record: equal spin strings and equal global indices at
both endpoints. -/
noncomputable def entryC4 : TransitEntry :=
  ⟨"2", "-", 1, 1 / 2, "2", "+", 1, 0, 1 / 2, 42, ((42 : ℚ) : ℝ) / bwE2_50,
   83, ((83 : ℚ) : ℝ) / bwE2_50⟩

theorem storeTransit_C4 :
    storeTransit ctxC4 [] 4 3 (-20) 4 5 (-39 / 2) (1 / 2) 83 42 =
      .ok [(keyC4, entryC4)] := by
  have l1 : dictLookup njnpC4 (4, "+", 3) = some 1 := by decide
  have l2 : dictLookup njnpC4 (4, "-", 5) = some 1 := by decide
  simp only [storeTransit, ctxC4]
  rw [if_neg (show ¬ (True ∧ (3 : ℤ) = 5) by decide)]
  rw [if_neg (show ¬ (false = true ∧ (1 / 2 : ℚ) < 0) by
    rintro ⟨h, _⟩; exact Bool.false_ne_true h)]
  rw [if_neg (no_threshold_cut 83 bwE2_50 (by norm_num) bwE2_50_pos)]
  rw [if_neg (no_threshold_cut 42 bwE2_50 (by norm_num) bwE2_50_pos)]
  simp only [l1, l2]
  rw [if_pos (show (1 / 2 : ℚ) > 0 by norm_num)]
  with_unfolding_all rfl

theorem processTransitLineNew_C4 :
    processTransitLineNew ctxC4 [] dataLineC4 = .ok [(keyC4, entryC4)] := by
  have h0 : pyIntAt (pySplit dataLineC4) 0 = .ok 4 := by with_unfolding_all rfl
  have h1 : pyIntAt (pySplit dataLineC4) 1 = .ok 3 := by with_unfolding_all rfl
  have h2 : pyFloatAt (pySplit dataLineC4) 2 = .ok (-20) := by with_unfolding_all rfl
  have h3 : pyIntAt (pySplit dataLineC4) 3 = .ok 4 := by with_unfolding_all rfl
  have h4 : pyIntAt (pySplit dataLineC4) 4 = .ok 5 := by with_unfolding_all rfl
  have h5 : pyFloatAt (pySplit dataLineC4) 5 = .ok (-39 / 2) := by with_unfolding_all rfl
  have h6 : pyFloatAt (pySplit dataLineC4) 6 = .ok (1 / 2) := by with_unfolding_all rfl
  have h7 : pyFloatAt (pySplit dataLineC4) 7 = .ok 1 := by with_unfolding_all rfl
  have h8 : pyFloatAt (pySplit dataLineC4) 8 = .ok 83 := by with_unfolding_all rfl
  have h9 : pyFloatAt (pySplit dataLineC4) 9 = .ok 42 := by with_unfolding_all rfl
  have h10 : pyFloatAt (pySplit dataLineC4) 10 = .ok 0 := by with_unfolding_all rfl
  simp only [processTransitLineNew, h0, h1, h2, h3, h4, h5, h6, h7, h8, h9, h10,
    except_bind_ok]
  exact storeTransit_C4

theorem tablePhaseNew_C4 :
    tablePhaseNew ctxC4 [] [dataLineC4] = .ok [(keyC4, entryC4)] := by
  simp only [tablePhaseNew]
  rw [if_neg (show ¬ (pySplit dataLineC4 = []) by decide),
      if_neg (show ¬ (pyStartswith dataLineC4 "pn=" = true) by decide)]
  rw [processTransitLineNew_C4]

theorem read_transit_logfile_C4 :
    read_transit_logfile transitFileC4 "E2" njnpC4 (-20) =
      .ok ("e^2 fm^4", [(keyC4, entryC4)], 50) := by
  have hh : headerLoop "E2" ⟨0, none, none, none, none⟩ transitFileC4 =
      .ok (⟨50, some bwE2_50, some "e^2 fm^4", some "a.wav", some "b.wav"⟩,
           some ("+", "-", false, [tblHeaderLine, dataLineC4])) := by
    with_unfolding_all rfl
  simp only [read_transit_logfile, hh, List.drop]
  have ht : tablePhaseNew ⟨"+", "-", false, some bwE2_50, njnpC4, -20⟩ []
      [dataLineC4] = .ok [(keyC4, entryC4)] := tablePhaseNew_C4
  rw [ht]

set_option maxRecDepth 100000 in
theorem read_transit_logfile_C4_E1 :
    read_transit_logfile transitFileC4 "E1" njnpC4 (-20) =
      .ok ("e^2 fm^2", [], 50) := by
  with_unfolding_all rfl

set_option maxRecDepth 100000 in
theorem read_transit_logfile_C4_M1 :
    read_transit_logfile transitFileC4 "M1" njnpC4 (-20) =
      .ok ("mu_N^2  ", [], 50) := by
  with_unfolding_all rfl

set_option maxRecDepth 400000 in
theorem blocksFor_C4 :
    blocksFor false njnpC4 (-20) [transitFileC4] ["E1", "M1", "E2"] =
      .ok [⟨"E1", 50, bwE1_50, "e^2 fm^2", []⟩,
           ⟨"M1", 50, bwM1_50, "mu_N^2  ", []⟩,
           ⟨"E2", 50, bwE2_50, "e^2 fm^4", [entryC4]⟩] := by
  have hw1 : weisskopf_unit "E1" 50 = .ok (bwE1_50, "e^2 fm^2") := by
    with_unfolding_all rfl
  have hwm : weisskopf_unit "M1" 50 = .ok (bwM1_50, "mu_N^2  ") := by
    with_unfolding_all rfl
  have hw2 : weisskopf_unit "E2" 50 = .ok (bwE2_50, "e^2 fm^4") := by
    with_unfolding_all rfl
  have hupd : dictUpdate ([] : List (ℚ × TransitEntry)) [(keyC4, entryC4)] =
      [(keyC4, entryC4)] := by
    simp [dictUpdate, dictInsert]
  have hsort : (List.insertionSort (fun a b => a.1 ≤ b.1)
      [(keyC4, entryC4)]).map Prod.snd = [entryC4] := rfl
  simp only [blocksFor, transitBlock, transitFold, read_transit_logfile_C4_E1,
    read_transit_logfile_C4_M1, read_transit_logfile_C4, hw1, hwm, hw2, hupd, hsort,
    dictUpdate, List.foldl]
  rfl

set_option maxRecDepth 400000 in
/-- **Counterexample to Claim C4.** A transition whose endpoints have equal
spin and equal *global* index (but different local indices, in sectors of
opposite parity) survives every filter and is written to the summary: the
E2 block below contains exactly one row, and that row reads
`J_i = J_f = "2"` and `idx_i = idx_f = 1`. -/
theorem transit_self_global_survives :
    (collect_logs [("f", energyFileC4)] [transitFileC4] "new").map
        (Except.map (fun p =>
          (p.1.levels,
           p.1.blocks.map (fun b => (b.multipole, b.mass, b.rows.map TransitEntry.q)),
           p.2))) =
      some (.ok
        ([⟨1, "2", "+", 1, "0", -20, 0, "f"⟩,
          ⟨2, "2", "-", 1, "0", -39 / 2, 1 / 2, "f"⟩],
         [("E1", 50, []), ("M1", 50, []),
          ("E2", 50, [("2", "-", 1, 1 / 2, "2", "+", 1, 0, 1 / 2, 42, 83)])],
         false)) := by
  have hg : gatherEnergies [("f", energyFileC4)] [] = some (.ok tableC4) := by
    with_unfolding_all rfl
  have hlow : pyLower "new" = "new" := by decide
  simp only [collect_logs, hg, hlow]
  rw [if_neg (show ¬ (tableC4 = []) by decide)]
  have hbi : buildIndex tableC4 =
      (njnpC4, [((-20 : ℚ), ⟨"f", 4, "+", 1, 0⟩), ((-39 / 2 : ℚ), ⟨"f", 4, "-", 1, 0⟩)]) := by
    with_unfolding_all rfl
  have hse : sortedEnergies tableC4 = [-20, -39 / 2] := by
    with_unfolding_all rfl
  simp only [hbi, hse, List.headD]
  rw [show (decide (("new" : String) = "old")) = false from by decide]
  rw [blocksFor_C4]
  with_unfolding_all rfl

/-! ## Claim C5: order independence -/

/-- Eigenstate `1` of the `0⁺` sector at `0.0` MeV. -/
def recSpin0E0 : String :=
  "    1 <H>:     0.00000                         0          1\n"

/-- Eigenstate `1` of the `4⁺` sector at the *same* energy `0.0` MeV. -/
def recSpin4E0 : String :=
  "    1 <H>:     0.00000                         4          1\n"

/-- Two energy logs that report the same energy for states of different
spin. -/
def fileA5 : String × List String := ("a", ["H converged\n", recSpin0E0, ttLine0])

def fileB5 : String × List String := ("b", ["H converged\n", recSpin4E0, ttLine0])

/-- The energy table after visiting `fileA5` then `fileB5`. -/
def tabAB : EnergyTable :=
  [((0 : ℚ), ⟨"a", 0, "+", 1, 0⟩), ((1 / 1000000 : ℚ), ⟨"b", 4, "+", 1, 0⟩)]

/-- The energy table after visiting `fileB5` then `fileA5`. -/
def tabBA : EnergyTable :=
  [((0 : ℚ), ⟨"b", 4, "+", 1, 0⟩), ((1 / 1000000 : ℚ), ⟨"a", 0, "+", 1, 0⟩)]

set_option maxRecDepth 200000 in
/-- **Counterexample to Claim C5.** When two files collide on an energy
key, the nudge resolves the collision in visit order: visiting the same
two files in the two possible orders produces different summaries (the
levels block lists the spin-0 state of file `a` first in one order and the
spin-4 state of file `b` first in the other), not summaries identical up
to the filename suffix. -/
theorem collect_logs_order_dependent :
    (collect_logs [fileA5, fileB5] [] "new").map
        (Except.map (fun p => p.1.levels)) ≠
      (collect_logs [fileB5, fileA5] [] "new").map
        (Except.map (fun p => p.1.levels)) := by
  have hlow : pyLower "new" = "new" := by decide
  have hA : read_energy_logfile "a" ["H converged\n", recSpin0E0, ttLine0] [] =
      some (.ok [((0 : ℚ), ⟨"a", 0, "+", 1, 0⟩)]) := by
    with_unfolding_all rfl
  have hB : read_energy_logfile "b" ["H converged\n", recSpin4E0, ttLine0] [((0 : ℚ), ⟨"a", 0, "+", 1, 0⟩)] =
      some (.ok [((0 : ℚ), ⟨"a", 0, "+", 1, 0⟩),
                 ((1 / 1000000 : ℚ), ⟨"b", 4, "+", 1, 0⟩)]) := by
    with_unfolding_all rfl
  have hB' : read_energy_logfile "b" ["H converged\n", recSpin4E0, ttLine0] [] =
      some (.ok [((0 : ℚ), ⟨"b", 4, "+", 1, 0⟩)]) := by
    with_unfolding_all rfl
  have hA' : read_energy_logfile "a" ["H converged\n", recSpin0E0, ttLine0] [((0 : ℚ), ⟨"b", 4, "+", 1, 0⟩)] =
      some (.ok [((0 : ℚ), ⟨"b", 4, "+", 1, 0⟩),
                 ((1 / 1000000 : ℚ), ⟨"a", 0, "+", 1, 0⟩)]) := by
    with_unfolding_all rfl
  have hg1 : gatherEnergies [fileA5, fileB5] [] = some (.ok tabAB) := by
    simp only [gatherEnergies, fileA5, fileB5, hA, hB, tabAB]
  have hg2 : gatherEnergies [fileB5, fileA5] [] = some (.ok tabBA) := by
    simp only [gatherEnergies, fileA5, fileB5, hB', hA', tabBA]
  have hd1 : dictLookup tabAB (0 : ℚ) = some ⟨"a", 0, "+", 1, 0⟩ := by
    simp only [tabAB, dictLookup]
    norm_num
  have hd2 : dictLookup tabAB (1 / 1000000 : ℚ) = some ⟨"b", 4, "+", 1, 0⟩ := by
    simp only [tabAB, dictLookup]
    norm_num
  have hd1' : dictLookup tabBA (0 : ℚ) = some ⟨"b", 4, "+", 1, 0⟩ := by
    simp only [tabBA, dictLookup]
    norm_num
  have hd2' : dictLookup tabBA (1 / 1000000 : ℚ) = some ⟨"a", 0, "+", 1, 0⟩ := by
    simp only [tabBA, dictLookup]
    norm_num
  have hse1 : sortedEnergies tabAB = [0, 1 / 1000000] := by
    with_unfolding_all rfl
  have hse2 : sortedEnergies tabBA = [0, 1 / 1000000] := by
    with_unfolding_all rfl
  have hbi1 : buildIndex tabAB = ([((0, "+", 1), 1), ((4, "+", 1), 1)], tabAB) := by
    simp only [buildIndex, hse1, assignAux, hd1, hd2]
    with_unfolding_all rfl
  have hbi2 : buildIndex tabBA = ([((4, "+", 1), 1), ((0, "+", 1), 1)], tabBA) := by
    simp only [buildIndex, hse2, assignAux, hd1', hd2']
    with_unfolding_all rfl
  have e1 : (collect_logs [fileA5, fileB5] [] "new").map
      (Except.map (fun p => p.1.levels)) =
      some (.ok [⟨1, "0", "+", 1, "0", 0, 0, "a"⟩,
                 ⟨2, "2", "+", 1, "0", 1 / 1000000, 1 / 1000000, "b"⟩]) := by
    simp only [collect_logs, hg1, hlow]
    rw [if_neg (show ¬ (tabAB = []) by simp [tabAB])]
    simp only [hbi1, hse1]
    with_unfolding_all rfl
  have e2 : (collect_logs [fileB5, fileA5] [] "new").map
      (Except.map (fun p => p.1.levels)) =
      some (.ok [⟨1, "2", "+", 1, "0", 0, 0, "b"⟩,
                 ⟨2, "0", "+", 1, "0", 1 / 1000000, 1 / 1000000, "a"⟩]) := by
    simp only [collect_logs, hg2, hlow]
    rw [if_neg (show ¬ (tabBA = []) by simp [tabBA])]
    simp only [hbi2, hse2]
    with_unfolding_all rfl
  rw [e1, e2]
  intro h
  simp only [Option.some.injEq, Except.ok.injEq, List.cons.injEq, LevelRow.mk.injEq] at h
  exact absurd h.1.2.1 (by decide)

/-! ### Order independence in the absence of collisions

Proof-support definitions naming the per-file parses and the stage
outputs, so that the "no collisions / no key overlaps / consistent mass"
hypotheses of the amended claim can be stated. -/

/-- Whether the nudge-free parse of one energy log succeeds. -/
def rawParses (f : String × List String) : Bool :=
  match read_energy_logfile_raw f.1 f.2 [] with
  | some (.ok _) => true
  | _ => false

/-- The entries the nudge-free parse of one energy log produces. -/
def rawEntries (f : String × List String) : List (ℚ × EnergyRecord) :=
  match read_energy_logfile_raw f.1 f.2 [] with
  | some (.ok D) => D
  | _ => []

/-- The energy table of a whole run, per-file entries in visit order. -/
def runTable (efs : List (String × List String)) : EnergyTable :=
  (efs.map rawEntries).flatten

/-- The selected transition-log parser variant. -/
noncomputable def transitResult (old : Bool) (f : List String) (mt : String)
    (njnp : NJnp) (egs : ℚ) : Except String (String × List (ℚ × TransitEntry) × ℤ) :=
  if old then read_transit_logfile_old f mt njnp egs
  else read_transit_logfile f mt njnp egs

/-- Whether one transition-log parse succeeds. -/
noncomputable def transitOk (old : Bool) (f : List String) (mt : String)
    (njnp : NJnp) (egs : ℚ) : Bool :=
  match transitResult old f mt njnp egs with
  | .ok _ => true
  | _ => false

/-- The keyed entries one transition-log parse produces. -/
noncomputable def transitOut (old : Bool) (f : List String) (mt : String)
    (njnp : NJnp) (egs : ℚ) : List (ℚ × TransitEntry) :=
  match transitResult old f mt njnp egs with
  | .ok r => r.2.1
  | _ => []

/-- The composite keys one transition-log parse produces. -/
noncomputable def transitKeys (old : Bool) (f : List String) (mt : String)
    (njnp : NJnp) (egs : ℚ) : List ℚ :=
  (transitOut old f mt njnp egs).map Prod.fst

/-- The mass one transition-log parse reports. -/
noncomputable def transitMass (old : Bool) (f : List String) (mt : String)
    (njnp : NJnp) (egs : ℚ) : ℤ :=
  match transitResult old f mt njnp egs with
  | .ok r => r.2.2
  | _ => 0

/-- The nudge-free middle loop only appends: running it from any
accumulator prepends that accumulator to the run from `[]`. -/
theorem middleLoopRawF_shift (fname : String) :
    ∀ (fuel : ℕ) (lines : List String) (acc : List (ℚ × EnergyRecord)),
      middleLoopRawF fname fuel acc lines =
        (middleLoopRawF fname fuel [] lines).map (Except.map (fun D => acc ++ D)) := by
  intro fuel
  induction fuel with
  | zero => intro lines acc; simp [middleLoopRawF]
  | succ m ih =>
    intro lines acc
    cases lines with
    | nil => simp [middleLoopRawF, Except.map]
    | cons l rest =>
      simp only [middleLoopRawF]
      by_cases hc : pySlice l 6 10 = "<H>:"
      · rw [if_pos hc, if_pos hc]
        cases h1 : pyInt (pySlice l 0 5) with
        | none => rfl
        | some n_eig =>
          cases h2 : pyFloat (pySlice l 11 22) with
          | none => rfl
          | some energy =>
            cases h3 : pyInt (pySlice l 45 48) with
            | none => rfl
            | some spin =>
              cases h4 : pyInt (pySlice l 57 59) with
              | none => rfl
              | some par =>
                simp only
                cases h5 : scanT rest with
                | none => rfl
                | some r =>
                  cases r with
                  | error msg => rfl
                  | ok p =>
                    obtain ⟨tt, rest'⟩ := p
                    simp only [List.nil_append]
                    rw [ih rest', ih rest' [(energy,
                      ⟨fname, spin, parity_integer_to_string par, n_eig, tt⟩)]]
                    cases middleLoopRawF fname m [] rest' with
                    | none => rfl
                    | some r' =>
                      cases r' with
                      | error e => rfl
                      | ok D => simp [Except.map]
      · rw [if_neg hc, if_neg hc]
        exact ih rest acc

/-- When the raw (nudge-free) parse succeeds and its keys collide neither
with each other nor with the accumulated table, the real parse performs no
nudges and simply appends the raw entries. -/
theorem middleLoopF_of_raw (fname : String) :
    ∀ (fuel : ℕ) (lines : List String) (tbl : EnergyTable) (D : List (ℚ × EnergyRecord)),
      middleLoopRawF fname fuel [] lines = some (.ok D) →
      (((tbl ++ D).map Prod.fst).Nodup) →
      middleLoopF fname fuel tbl lines = some (.ok (tbl ++ D)) := by
  intro fuel
  induction fuel with
  | zero => intro lines tbl D h _; simp [middleLoopRawF] at h
  | succ m ih =>
    intro lines tbl D h hnd
    cases lines with
    | nil =>
      simp only [middleLoopRawF, Option.some.injEq, Except.ok.injEq] at h
      subst h
      simp [middleLoopF]
    | cons l rest =>
      simp only [middleLoopRawF] at h
      simp only [middleLoopF]
      by_cases hc : pySlice l 6 10 = "<H>:"
      · rw [if_pos hc] at h ⊢
        cases h1 : pyInt (pySlice l 0 5) with
        | none => rw [h1] at h; simp at h
        | some n_eig =>
          rw [h1] at h
          cases h2 : pyFloat (pySlice l 11 22) with
          | none => rw [h2] at h; simp at h
          | some energy =>
            rw [h2] at h
            cases h3 : pyInt (pySlice l 45 48) with
            | none => rw [h3] at h; simp at h
            | some spin =>
              rw [h3] at h
              cases h4 : pyInt (pySlice l 57 59) with
              | none => rw [h4] at h; simp at h
              | some par =>
                rw [h4] at h
                simp only at h ⊢
                cases h5 : scanT rest with
                | none => rw [h5] at h; simp at h
                | some r =>
                  rw [h5] at h
                  cases r with
                  | error msg => simp at h
                  | ok p =>
                    obtain ⟨tt, rest'⟩ := p
                    simp only at h
                    rw [middleLoopRawF_shift fname m rest'] at h
                    cases h6 : middleLoopRawF fname m [] rest' with
                    | none => rw [h6] at h; simp at h
                    | some r' =>
                      rw [h6] at h
                      cases r' with
                      | error e => simp [Except.map] at h
                      | ok D' =>
                        simp only [Option.map, Except.map, Option.some.injEq,
                          Except.ok.injEq, List.singleton_append] at h
                        subst h
                        dsimp only
                        have hmem : energy ∉ tbl.map Prod.fst := by
                          intro hin
                          have : energy ∈ ((tbl ++ (energy,
                              (⟨fname, spin, parity_integer_to_string par, n_eig, tt⟩ :
                                EnergyRecord)) :: D').map Prod.fst) := by
                            simp
                          have hni := hnd
                          simp only [List.map_append, List.nodup_append] at hni
                          exact hni.2.2 hin (by simp)
                        rw [nudge_of_notMem _ _ hmem]
                        have hgoal := ih rest'
                          (tbl ++ [(energy,
                            ⟨fname, spin, parity_integer_to_string par, n_eig, tt⟩)]) D' h6 ?_
                        · rw [hgoal]
                          simp
                        · have : (tbl ++ [(energy,
                              (⟨fname, spin, parity_integer_to_string par, n_eig, tt⟩ :
                                EnergyRecord))]) ++ D' =
                              tbl ++ (energy,
                                (⟨fname, spin, parity_integer_to_string par, n_eig, tt⟩ :
                                  EnergyRecord)) :: D' := by
                            simp
                          rw [this]
                          exact hnd
      · rw [if_neg hc] at h ⊢
        exact ih rest tbl D h hnd

/-- Outer-loop version of `middleLoopF_of_raw`. -/
theorem read_energy_logfile_of_raw (fname : String) :
    ∀ (lines : List String) (tbl : EnergyTable) (D : List (ℚ × EnergyRecord)),
      read_energy_logfile_raw fname lines [] = some (.ok D) →
      (((tbl ++ D).map Prod.fst).Nodup) →
      read_energy_logfile fname lines tbl = some (.ok (tbl ++ D)) := by
  intro lines
  induction lines with
  | nil =>
    intro tbl D h hnd
    simp only [read_energy_logfile_raw, Option.some.injEq, Except.ok.injEq] at h
    subst h
    simp [read_energy_logfile]
  | cons l rest ih =>
    intro tbl D h hnd
    simp only [read_energy_logfile_raw] at h
    simp only [read_energy_logfile]
    by_cases h1 : 11 ≤ pyLen l ∧ pySlice l 0 11 ≠ "H converged"
    · rw [if_pos h1] at h ⊢
      exact ih tbl D h hnd
    · rw [if_neg h1] at h ⊢
      by_cases h2 : 14 ≤ pyLen l ∧ pySlice l 0 14 ≠ "H bn converged"
      · rw [if_pos h2] at h ⊢
        exact ih tbl D h hnd
      · rw [if_neg h2] at h ⊢
        exact middleLoopF_of_raw fname _ rest tbl D h hnd

/-- With all raw parses succeeding and no key collisions anywhere, the
energy-gathering fold appends the per-file raw entries in visit order. -/
theorem gatherEnergies_eq :
    ∀ (efs : List (String × List String)) (tbl : EnergyTable),
      (∀ f ∈ efs, rawParses f = true) →
      (((tbl ++ (efs.map rawEntries).flatten).map Prod.fst).Nodup) →
      gatherEnergies efs tbl = some (.ok (tbl ++ (efs.map rawEntries).flatten)) := by
  intro efs
  induction efs with
  | nil => intro tbl _ _; simp [gatherEnergies]
  | cons f rest ih =>
    intro tbl hok hnd
    obtain ⟨fname, lines⟩ := f
    have hraw : rawParses (fname, lines) = true := hok _ (by simp)
    rw [rawParses] at hraw
    cases hr : read_energy_logfile_raw (fname, lines).1 (fname, lines).2 [] with
    | none => rw [hr] at hraw; simp at hraw
    | some r =>
      rw [hr] at hraw
      cases r with
      | error e => simp at hraw
      | ok D =>
        have hD : rawEntries (fname, lines) = D := by
          rw [rawEntries, hr]
        have hflat : ((fname, lines) :: rest).map rawEntries = D :: rest.map rawEntries := by
          simp [hD]
        rw [hflat] at hnd ⊢
        simp only [List.flatten_cons] at hnd ⊢
        have hnd1 : (((tbl ++ D) ++ (rest.map rawEntries).flatten).map Prod.fst).Nodup := by
          rw [List.append_assoc]
          exact hnd
        simp only [gatherEnergies]
        rw [read_energy_logfile_of_raw fname lines tbl D hr
          (by
            have := hnd1
            simp only [List.map_append, List.nodup_append] at this ⊢
            exact ⟨this.1.1, this.1.2.1, this.1.2.2⟩)]
        dsimp only
        rw [ih (tbl ++ D) (fun g hg => hok g (by simp [hg])) hnd1]
        rw [List.append_assoc]

/-- Sorting the energies only depends on the multiset of keys. -/
theorem sortedEnergies_perm (T1 T2 : EnergyTable) (h : T1.Perm T2) :
    sortedEnergies T1 = sortedEnergies T2 := by
  haveI ha : IsAntisymm ℚ (fun a b : ℚ => a ≤ b) := ⟨fun a b h1 h2 => le_antisymm h1 h2⟩
  haveI ht : IsTotal ℚ (fun a b : ℚ => a ≤ b) := ⟨fun a b => le_total a b⟩
  haveI htr : IsTrans ℚ (fun a b : ℚ => a ≤ b) := ⟨fun a b c h1 h2 => le_trans h1 h2⟩
  simp only [sortedEnergies]
  exact List.eq_of_perm_of_sorted
    (((List.perm_insertionSort _ _).trans (h.map Prod.fst)).trans
      (List.perm_insertionSort _ _).symm)
    (List.sorted_insertionSort _ _) (List.sorted_insertionSort _ _)

/-- Dictionary lookup is invariant under permutation when keys are unique. -/
theorem dictLookup_perm {κ ν : Type} [DecidableEq κ] :
    ∀ {l1 l2 : List (κ × ν)}, l1.Perm l2 → (l1.map Prod.fst).Nodup →
      ∀ k, dictLookup l1 k = dictLookup l2 k := by
  intro l1 l2 h
  induction h with
  | nil => intro _ _; rfl
  | cons x p ih =>
    intro hnd k
    obtain ⟨kx, vx⟩ := x
    simp only [dictLookup]
    by_cases hk : kx = k
    · rw [if_pos hk, if_pos hk]
    · rw [if_neg hk, if_neg hk]
      exact ih (by simp only [List.map_cons, List.nodup_cons] at hnd; exact hnd.2) k
  | swap x y l =>
    intro hnd k
    obtain ⟨kx, vx⟩ := x
    obtain ⟨ky, vy⟩ := y
    simp only [dictLookup]
    by_cases hx : kx = k <;> by_cases hy : ky = k
    · exfalso
      simp only [List.map_cons, List.nodup_cons, List.mem_cons] at hnd
      exact hnd.1 (Or.inl (by rw [hx, hy]))
    · simp [hx, hy]
    · simp [hx, hy]
    · simp [hx, hy]
  | trans p1 p2 ih1 ih2 =>
    intro hnd k
    rw [ih1 hnd k, ih2 (((p1.map Prod.fst).nodup_iff).mp hnd) k]

/-- The index-assignment loop only inspects the table through lookups. -/
theorem assignAux_congr (T1 T2 : EnergyTable)
    (h : ∀ e, dictLookup T1 e = dictLookup T2 e) :
    ∀ (ks : List ℚ) (occ : List ((ℤ × String) × ℤ)) (njnp : NJnp) (acc : EnergyTable),
      assignAux T1 ks occ njnp acc = assignAux T2 ks occ njnp acc := by
  intro ks
  induction ks with
  | nil => intro occ njnp acc; rfl
  | cons e rest ih =>
    intro occ njnp acc
    simp only [assignAux, h e]
    cases dictLookup T2 e with
    | none => exact ih _ _ _
    | some r => exact ih _ _ _

/-- The whole index-building stage is permutation-invariant for tables with
unique keys. -/
theorem buildIndex_perm (T1 T2 : EnergyTable) (h : T1.Perm T2)
    (hnd : (T1.map Prod.fst).Nodup) :
    buildIndex T1 = buildIndex T2 := by
  rw [buildIndex, buildIndex, sortedEnergies_perm T1 T2 h]
  exact assignAux_congr T1 T2 (dictLookup_perm h hnd) _ _ _ _

/-- Overwriting an existing key leaves the key list unchanged. -/
theorem dictInsert_keys_of_mem {κ ν : Type} [DecidableEq κ]
    (tbl : List (κ × ν)) (k : κ) (v : ν) (h : k ∈ tbl.map Prod.fst) :
    (dictInsert tbl k v).map Prod.fst = tbl.map Prod.fst := by
  rw [dictInsert, if_pos h, List.map_map]
  apply List.map_congr_left
  intro p _
  by_cases hp : p.1 = k
  · simp [hp]
  · simp [hp]

/-- Python dict assignment preserves key uniqueness. -/
theorem dictInsert_nodup {κ ν : Type} [DecidableEq κ]
    (tbl : List (κ × ν)) (k : κ) (v : ν) (h : (tbl.map Prod.fst).Nodup) :
    ((dictInsert tbl k v).map Prod.fst).Nodup := by
  by_cases hm : k ∈ tbl.map Prod.fst
  · rw [dictInsert_keys_of_mem tbl k v hm]
    exact h
  · rw [dictInsert, if_neg hm]
    simp only [List.map_append, List.map_cons, List.map_nil]
    rw [List.nodup_append]
    exact ⟨h, List.nodup_singleton _, fun a ha hb => by
      simp only [List.mem_singleton] at hb
      subst hb
      exact hm ha⟩

/-- The common post-processing either drops the record or performs one dict
assignment. -/
theorem storeTransit_shape (ctx : TransitCtx) (out_e : List (ℚ × TransitEntry))
    (sf i1 : ℤ) (Ef : ℚ) (si i2 : ℤ) (Ei dE Bd Be : ℚ)
    (r : List (ℚ × TransitEntry))
    (h : storeTransit ctx out_e sf i1 Ef si i2 Ei dE Bd Be = .ok r) :
    r = out_e ∨ ∃ k v, r = dictInsert out_e k v := by
  rw [storeTransit] at h
  cases hbw : ctx.B_weisskopf with
  | none => rw [hbw] at h; exact absurd h (by simp)
  | some bw =>
    rw [hbw] at h
    dsimp only at h
    split at h
    · exact Or.inl (Except.ok.inj h).symm
    · split at h
      · exact Or.inl (Except.ok.inj h).symm
      · split at h
        · exact Or.inl (Except.ok.inj h).symm
        · split at h
          · exact Or.inl (Except.ok.inj h).symm
          · split at h
            · split at h
              · exact Or.inr ⟨_, _, (Except.ok.inj h).symm⟩
              · exact Or.inr ⟨_, _, (Except.ok.inj h).symm⟩
            · exact absurd h (by simp)

theorem except_bind_ok_inv {ε α β : Type} (x : Except ε α) (f : α → Except ε β)
    (r : β) (h : x >>= f = .ok r) : ∃ a, x = .ok a ∧ f a = .ok r := by
  cases x with
  | error e => exact absurd h (by simp [Bind.bind, Except.bind])
  | ok a => exact ⟨a, rfl, h⟩

/-- The current-layout line processor either drops the record or performs
one dict assignment. -/
theorem processTransitLineNew_shape (ctx : TransitCtx)
    (out_e : List (ℚ × TransitEntry)) (l : String) (r : List (ℚ × TransitEntry))
    (h : processTransitLineNew ctx out_e l = .ok r) :
    r = out_e ∨ ∃ k v, r = dictInsert out_e k v := by
  rw [processTransitLineNew] at h
  obtain ⟨a0, _, h⟩ := except_bind_ok_inv _ _ _ h
  obtain ⟨a1, _, h⟩ := except_bind_ok_inv _ _ _ h
  obtain ⟨a2, _, h⟩ := except_bind_ok_inv _ _ _ h
  obtain ⟨a3, _, h⟩ := except_bind_ok_inv _ _ _ h
  obtain ⟨a4, _, h⟩ := except_bind_ok_inv _ _ _ h
  obtain ⟨a5, _, h⟩ := except_bind_ok_inv _ _ _ h
  obtain ⟨a6, _, h⟩ := except_bind_ok_inv _ _ _ h
  obtain ⟨a7, _, h⟩ := except_bind_ok_inv _ _ _ h
  obtain ⟨a8, _, h⟩ := except_bind_ok_inv _ _ _ h
  obtain ⟨a9, _, h⟩ := except_bind_ok_inv _ _ _ h
  obtain ⟨a10, _, h⟩ := except_bind_ok_inv _ _ _ h
  exact storeTransit_shape _ _ _ _ _ _ _ _ _ _ _ _ h

/-- The legacy-layout line processor either drops the record or performs
one dict assignment. -/
theorem processTransitLineOld_shape (ctx : TransitCtx)
    (out_e : List (ℚ × TransitEntry)) (l : String) (r : List (ℚ × TransitEntry))
    (h : processTransitLineOld ctx out_e l = .ok r) :
    r = out_e ∨ ∃ k v, r = dictInsert out_e k v := by
  rw [processTransitLineOld] at h
  obtain ⟨a0, _, h⟩ := except_bind_ok_inv _ _ _ h
  obtain ⟨a1, _, h⟩ := except_bind_ok_inv _ _ _ h
  obtain ⟨a2, _, h⟩ := except_bind_ok_inv _ _ _ h
  obtain ⟨a3, _, h⟩ := except_bind_ok_inv _ _ _ h
  obtain ⟨a4, _, h⟩ := except_bind_ok_inv _ _ _ h
  obtain ⟨a5, _, h⟩ := except_bind_ok_inv _ _ _ h
  obtain ⟨a6, _, h⟩ := except_bind_ok_inv _ _ _ h
  obtain ⟨a7, _, h⟩ := except_bind_ok_inv _ _ _ h
  obtain ⟨a8, _, h⟩ := except_bind_ok_inv _ _ _ h
  exact storeTransit_shape _ _ _ _ _ _ _ _ _ _ _ _ h

/-- `dict.update` is plain concatenation when no key of the update is
already present. -/
theorem dictUpdate_append {κ ν : Type} [DecidableEq κ] :
    ∀ (upd tbl : List (κ × ν)), (((tbl ++ upd).map Prod.fst).Nodup) →
      dictUpdate tbl upd = tbl ++ upd := by
  intro upd
  induction upd with
  | nil => intro tbl _; simp [dictUpdate]
  | cons p rest ih =>
    intro tbl hnd
    obtain ⟨k, v⟩ := p
    have hk : k ∉ tbl.map Prod.fst := by
      intro hin
      have hsplit := hnd
      rw [List.map_append, List.nodup_append] at hsplit
      exact hsplit.2.2 hin (by simp)
    have hins : dictInsert tbl k v = tbl ++ [(k, v)] := by
      rw [dictInsert, if_neg hk]
    have hstep : dictUpdate tbl ((k, v) :: rest) = dictUpdate (dictInsert tbl k v) rest := by
      simp [dictUpdate]
    rw [hstep, hins, ih (tbl ++ [(k, v)]) (by rw [List.append_assoc]; simpa using hnd)]
    simp

/-- A fold that only keeps the last value returns the common value on any
non-empty list of equals. -/
theorem foldl_keep_last {α β : Type} (g : α → β) :
    ∀ (l : List α) (a : β) (m : β), l ≠ [] → (∀ f ∈ l, g f = m) →
      l.foldl (fun t f => (fun _ => g f) t) a = m := by
  intro l
  induction l with
  | nil => intro a m hne _; exact absurd rfl hne
  | cons x rest ih =>
    intro a m _ hall
    cases hr : rest with
    | nil => simpa [hr] using hall x (by simp)
    | cons y t =>
      rw [List.foldl_cons]
      rw [← hr]
      exact ih (g x) m (by simp [hr]) (fun f hf => hall f (by simp [hf]))

theorem transitFold_cons (old : Bool) (mt : String) (njnp : NJnp) (egs : ℚ)
    (f : List String) (rest : List (List String))
    (tbl : List (ℚ × TransitEntry)) (m : ℤ) :
    transitFold old mt njnp egs (f :: rest) tbl m =
      (match transitResult old f mt njnp egs with
       | .error e => .error e
       | .ok (_, out_e, mass) =>
         transitFold old mt njnp egs rest (dictUpdate tbl out_e) mass) := rfl

/-- With every per-file parse succeeding and no composite-key overlap
anywhere, the per-multipole file fold appends the per-file entries in
visit order and keeps the last file's mass. -/
theorem transitFold_eq (old : Bool) (mt : String) (njnp : NJnp) (egs : ℚ) :
    ∀ (tfs : List (List String)) (tbl : List (ℚ × TransitEntry)) (m0 : ℤ),
      (∀ f ∈ tfs, transitOk old f mt njnp egs = true) →
      (((tbl ++ (tfs.map (fun f => transitOut old f mt njnp egs)).flatten).map
          Prod.fst).Nodup) →
      transitFold old mt njnp egs tfs tbl m0 =
        .ok (tbl ++ (tfs.map (fun f => transitOut old f mt njnp egs)).flatten,
             tfs.foldl (fun t f => (fun _ => transitMass old f mt njnp egs) t) m0) := by
  intro tfs
  induction tfs with
  | nil => intro tbl m0 _ _; simp [transitFold]
  | cons f rest ih =>
    intro tbl m0 hok hnd
    rw [transitFold_cons]
    have hfok : transitOk old f mt njnp egs = true := hok f (by simp)
    rw [transitOk] at hfok
    cases hr : transitResult old f mt njnp egs with
    | error e => rw [hr] at hfok; simp at hfok
    | ok r =>
      obtain ⟨uw, out_e, mass⟩ := r
      have hout : transitOut old f mt njnp egs = out_e := by
        rw [transitOut, hr]
      have hmass : transitMass old f mt njnp egs = mass := by
        rw [transitMass, hr]
      dsimp only
      simp only [List.map_cons, List.flatten_cons] at hnd ⊢
      rw [hout] at hnd ⊢
      have hnd1 : (((tbl ++ out_e) ++
          (rest.map (fun g => transitOut old g mt njnp egs)).flatten).map
            Prod.fst).Nodup := by
        rw [List.append_assoc]
        exact hnd
      have hupd : dictUpdate tbl out_e = tbl ++ out_e := by
        apply dictUpdate_append
        have := hnd1
        simp only [List.map_append, List.nodup_append] at this ⊢
        exact ⟨this.1.1, this.1.2.1, this.1.2.2⟩
      rw [hupd, ih (tbl ++ out_e) mass (fun g hg => hok g (by simp [hg])) hnd1]
      rw [List.append_assoc, List.foldl_cons, hmass]

/-- Two permuted entry lists with globally unique keys sort (by key) to the
same list. -/
theorem sortPairs_eq {ν : Type} (l1 l2 : List (ℚ × ν)) (h : l1.Perm l2)
    (hnd : (l1.map Prod.fst).Nodup) :
    List.insertionSort (fun a b : ℚ × ν => a.1 ≤ b.1) l1 =
      List.insertionSort (fun a b : ℚ × ν => a.1 ≤ b.1) l2 := by
  haveI ht : IsTotal (ℚ × ν) (fun a b : ℚ × ν => a.1 ≤ b.1) :=
    ⟨fun a b => le_total a.1 b.1⟩
  haveI htr : IsTrans (ℚ × ν) (fun a b : ℚ × ν => a.1 ≤ b.1) :=
    ⟨fun a b c h1 h2 => le_trans h1 h2⟩
  haveI has : IsAntisymm (ℚ × ν) (fun a b : ℚ × ν => a.1 < b.1) :=
    ⟨fun a b h1 h2 => absurd (lt_trans h1 h2) (lt_irrefl _)⟩
  haveI hts : IsTrans (ℚ × ν) (fun a b : ℚ × ν => a.1 < b.1) :=
    ⟨fun a b c h1 h2 => lt_trans h1 h2⟩
  have hnd2 : (l2.map Prod.fst).Nodup := ((h.map Prod.fst).nodup_iff).mp hnd
  have hs1 : (List.insertionSort (fun a b : ℚ × ν => a.1 ≤ b.1) l1).Sorted
      (fun a b : ℚ × ν => a.1 ≤ b.1) := List.sorted_insertionSort _ _
  have hs2 : (List.insertionSort (fun a b : ℚ × ν => a.1 ≤ b.1) l2).Sorted
      (fun a b : ℚ × ν => a.1 ≤ b.1) := List.sorted_insertionSort _ _
  have hn1 : ((List.insertionSort (fun a b : ℚ × ν => a.1 ≤ b.1) l1).map
      Prod.fst).Nodup :=
    (((List.perm_insertionSort _ l1).map Prod.fst).nodup_iff).mpr hnd
  have hn2 : ((List.insertionSort (fun a b : ℚ × ν => a.1 ≤ b.1) l2).map
      Prod.fst).Nodup :=
    (((List.perm_insertionSort _ l2).map Prod.fst).nodup_iff).mpr hnd2
  have hne1 : (List.insertionSort (fun a b : ℚ × ν => a.1 ≤ b.1) l1).Pairwise
      (fun a b : ℚ × ν => a.1 ≠ b.1) := (List.pairwise_map).mp hn1
  have hne2 : (List.insertionSort (fun a b : ℚ × ν => a.1 ≤ b.1) l2).Pairwise
      (fun a b : ℚ × ν => a.1 ≠ b.1) := (List.pairwise_map).mp hn2
  have hst1 : (List.insertionSort (fun a b : ℚ × ν => a.1 ≤ b.1) l1).Sorted
      (fun a b : ℚ × ν => a.1 < b.1) :=
    (hs1.and hne1).imp (fun hab => lt_of_le_of_ne hab.1 hab.2)
  have hst2 : (List.insertionSort (fun a b : ℚ × ν => a.1 ≤ b.1) l2).Sorted
      (fun a b : ℚ × ν => a.1 < b.1) :=
    (hs2.and hne2).imp (fun hab => lt_of_le_of_ne hab.1 hab.2)
  exact List.eq_of_perm_of_sorted
    ((List.perm_insertionSort _ l1).trans (h.trans (List.perm_insertionSort _ l2).symm))
    hst1 hst2

/-- One multipole block is order-independent when every file parses, the
composite keys are globally unique, and all files report the same mass. -/
theorem transitBlock_perm (old : Bool) (njnp : NJnp) (egs : ℚ)
    (tfs1 tfs2 : List (List String)) (mt : String)
    (hp : tfs1.Perm tfs2) (hne : tfs1 ≠ [])
    (hok : ∀ f ∈ tfs1, transitOk old f mt njnp egs = true)
    (hnd : ((tfs1.map (fun f => transitKeys old f mt njnp egs)).flatten).Nodup)
    (hmass : ∀ f1 ∈ tfs1, ∀ f2 ∈ tfs1,
      transitMass old f1 mt njnp egs = transitMass old f2 mt njnp egs) :
    transitBlock old njnp egs tfs1 mt = transitBlock old njnp egs tfs2 mt := by
  obtain ⟨f0, hf0⟩ := List.exists_mem_of_ne_nil tfs1 hne
  have hkeys : ∀ tfs : List (List String),
      ((tfs.map (fun f => transitOut old f mt njnp egs)).flatten.map Prod.fst) =
        (tfs.map (fun f => transitKeys old f mt njnp egs)).flatten := by
    intro tfs
    rw [List.map_flatten, List.map_map]
    rfl
  have hpout : ((tfs1.map (fun f => transitOut old f mt njnp egs)).flatten).Perm
      ((tfs2.map (fun f => transitOut old f mt njnp egs)).flatten) :=
    (hp.map _).flatten
  have hnd1 : (((tfs1.map (fun f => transitOut old f mt njnp egs)).flatten).map
      Prod.fst).Nodup := by
    rw [hkeys]
    exact hnd
  have hnd2 : (((tfs2.map (fun f => transitOut old f mt njnp egs)).flatten).map
      Prod.fst).Nodup := ((hpout.map Prod.fst).nodup_iff).mp hnd1
  have hok2 : ∀ f ∈ tfs2, transitOk old f mt njnp egs = true :=
    fun f hf => hok f (hp.mem_iff.mpr hf)
  have hf02 : f0 ∈ tfs2 := hp.mem_iff.mp hf0
  have hne2 : tfs2 ≠ [] := fun hnil => by
    rw [hnil] at hf02
    exact absurd hf02 (List.not_mem_nil f0)
  have hfold1 := transitFold_eq old mt njnp egs tfs1 [] 0 hok
    (by simpa using hnd1)
  have hfold2 := transitFold_eq old mt njnp egs tfs2 [] 0 hok2
    (by simpa using hnd2)
  have hm1 : tfs1.foldl (fun t f => (fun _ => transitMass old f mt njnp egs) t) 0 =
      transitMass old f0 mt njnp egs :=
    foldl_keep_last _ tfs1 0 _ hne (fun f hf => hmass f hf f0 hf0)
  have hm2 : tfs2.foldl (fun t f => (fun _ => transitMass old f mt njnp egs) t) 0 =
      transitMass old f0 mt njnp egs :=
    foldl_keep_last _ tfs2 0 _ hne2
      (fun f hf => hmass f (hp.mem_iff.mpr hf) f0 hf0)
  have hsort : List.insertionSort (fun a b : ℚ × TransitEntry => a.1 ≤ b.1)
      ((tfs1.map (fun f => transitOut old f mt njnp egs)).flatten) =
      List.insertionSort (fun a b : ℚ × TransitEntry => a.1 ≤ b.1)
      ((tfs2.map (fun f => transitOut old f mt njnp egs)).flatten) :=
    sortPairs_eq _ _ hpout hnd1
  rw [transitBlock, transitBlock, hfold1, hfold2, hm1, hm2]
  dsimp only
  cases weisskopf_unit mt (transitMass old f0 mt njnp egs) with
  | error e => rfl
  | ok p =>
    obtain ⟨bw, uw⟩ := p
    simp only [List.nil_append, Except.ok.injEq]
    rw [hsort]

/-- The whole multipole loop is order-independent under the per-multipole
hypotheses. -/
theorem blocksFor_congr (old : Bool) (njnp : NJnp) (egs : ℚ)
    (tfs1 tfs2 : List (List String)) (hp : tfs1.Perm tfs2) (hne : tfs1 ≠ []) :
    ∀ mts : List String,
      (∀ mt ∈ mts, (∀ f ∈ tfs1, transitOk old f mt njnp egs = true) ∧
        ((tfs1.map (fun f => transitKeys old f mt njnp egs)).flatten).Nodup ∧
        (∀ f1 ∈ tfs1, ∀ f2 ∈ tfs1,
          transitMass old f1 mt njnp egs = transitMass old f2 mt njnp egs)) →
      blocksFor old njnp egs tfs1 mts = blocksFor old njnp egs tfs2 mts := by
  intro mts
  induction mts with
  | nil => intro _; rfl
  | cons mt rest ih =>
    intro hall
    obtain ⟨hok, hnd, hmass⟩ := hall mt (by simp)
    rw [blocksFor, blocksFor,
      transitBlock_perm old njnp egs tfs1 tfs2 mt hp hne hok hnd hmass,
      ih (fun m hm => hall m (by simp [hm]))]

/-- **Claim C5 (amended).** The aggregation is order-independent provided
no two raw-parsed energies coincide anywhere in the run (so the collision
nudge never fires), every energy and transition log parses successfully,
the per-multipole composite transition keys are globally unique, and all
transition logs of one multipole report the same mass: visiting the energy
logs and the transition logs in any two orders yields the same result. -/
theorem collect_logs_order_independent
    (efs1 efs2 : List (String × List String)) (tfs1 tfs2 : List (List String))
    (mode : String)
    (hperm : efs1.Perm efs2) (htperm : tfs1.Perm tfs2)
    (hraw : ∀ f ∈ efs1, rawParses f = true)
    (hnodup : ((runTable efs1).map Prod.fst).Nodup)
    (htrans : ∀ mt ∈ ["E1", "M1", "E2"],
      (∀ f ∈ tfs1, transitOk (decide (pyLower mode = "old")) f mt
          (buildIndex (runTable efs1)).1
          ((sortedEnergies (runTable efs1)).headD 0) = true) ∧
      ((tfs1.map (fun f => transitKeys (decide (pyLower mode = "old")) f mt
          (buildIndex (runTable efs1)).1
          ((sortedEnergies (runTable efs1)).headD 0))).flatten).Nodup ∧
      (∀ f1 ∈ tfs1, ∀ f2 ∈ tfs1,
        transitMass (decide (pyLower mode = "old")) f1 mt
            (buildIndex (runTable efs1)).1
            ((sortedEnergies (runTable efs1)).headD 0) =
          transitMass (decide (pyLower mode = "old")) f2 mt
            (buildIndex (runTable efs1)).1
            ((sortedEnergies (runTable efs1)).headD 0))) :
    collect_logs efs1 tfs1 mode = collect_logs efs2 tfs2 mode := by
  by_cases hmode : pyLower mode = "new" ∨ pyLower mode = "old"
  · simp only [collect_logs]
    rw [if_neg (not_not_intro hmode), if_neg (not_not_intro hmode)]
    by_cases hefs : efs1 = []
    · have hefs2 : efs2 = [] := by
        have := hperm
        rw [hefs] at this
        exact this.symm.eq_nil
      rw [if_pos hefs, if_pos hefs2]
    · have hefs2 : efs2 ≠ [] := fun h2 => hefs (by
        have := hperm
        rw [h2] at this
        exact this.eq_nil)
      rw [if_neg hefs, if_neg hefs2]
      have hg1 : gatherEnergies efs1 [] = some (.ok (runTable efs1)) := by
        have h := gatherEnergies_eq efs1 [] hraw (by simpa [runTable] using hnodup)
        simpa [runTable] using h
      have hpt : (runTable efs1).Perm (runTable efs2) := (hperm.map rawEntries).flatten
      have hnodup2 : ((runTable efs2).map Prod.fst).Nodup :=
        ((hpt.map Prod.fst).nodup_iff).mp hnodup
      have hraw2 : ∀ f ∈ efs2, rawParses f = true :=
        fun f hf => hraw f (hperm.mem_iff.mpr hf)
      have hg2 : gatherEnergies efs2 [] = some (.ok (runTable efs2)) := by
        have h := gatherEnergies_eq efs2 [] hraw2 (by simpa [runTable] using hnodup2)
        simpa [runTable] using h
      rw [hg1, hg2]
      dsimp only
      by_cases htbl : runTable efs1 = []
      · have htbl2 : runTable efs2 = [] := by
          have := hpt
          rw [htbl] at this
          exact this.symm.eq_nil
        rw [if_pos htbl, if_pos htbl2]
      · have htbl2 : runTable efs2 ≠ [] := fun h2 => htbl (by
          have := hpt
          rw [h2] at this
          exact this.eq_nil)
        rw [if_neg htbl, if_neg htbl2]
        have hse : sortedEnergies (runTable efs1) = sortedEnergies (runTable efs2) :=
          sortedEnergies_perm _ _ hpt
        have hbi : buildIndex (runTable efs1) = buildIndex (runTable efs2) :=
          buildIndex_perm _ _ hpt hnodup
        rw [← hse, ← hbi]
        by_cases ht : tfs1 = []
        · have ht2 : tfs2 = [] := by
            have := htperm
            rw [ht] at this
            exact this.symm.eq_nil
          rw [if_pos ht, if_pos ht2, ht, ht2]
        · have ht2 : tfs2 ≠ [] := fun h2 => ht (by
            have := htperm
            rw [h2] at this
            exact this.eq_nil)
          rw [if_neg ht, if_neg ht2]
          have hwarn : (decide (tfs1 = []) : Bool) = decide (tfs2 = []) := by
            simp [ht, ht2]
          have hblocks := blocksFor_congr (decide (pyLower mode = "old"))
            (buildIndex (runTable efs1)).1
            ((sortedEnergies (runTable efs1)).headD 0) tfs1 tfs2 htperm ht
            ["E1", "M1", "E2"] htrans
          rw [hblocks, hwarn]
  · simp only [collect_logs]
    rw [if_pos hmode, if_pos hmode]

/-- A second record line, with energy `-19.0`. -/
def recLineW : String :=
  "    1 <H>:   -19.00000                         0          1\n"

/-- Two energy logs with distinct energies, for the order-independence
witness. -/
def wfileA : String × List String := ("a", ["x\n", recLineC6, ttLine0])

def wfileB : String × List String := ("b", ["x\n", recLineW, ttLine0])

set_option maxRecDepth 100000 in
theorem collect_logs_order_independent_witness :
    collect_logs [wfileA, wfileB] [] "new" = collect_logs [wfileB, wfileA] [] "new" :=
  collect_logs_order_independent [wfileA, wfileB] [wfileB, wfileA] [] [] "new"
    (by decide) (List.Perm.refl [])
    (of_decide_eq_true (by with_unfolding_all rfl))
    (of_decide_eq_true (by with_unfolding_all rfl))
    (fun _ _ => ⟨fun f hf => absurd hf (List.not_mem_nil f),
      by simp, fun f1 hf1 => absurd hf1 (List.not_mem_nil f1)⟩)

end CollectLogs
